import Mathlib

/-!
Shallow embedding of `leicaexperiment` (experiment.py, utils.py) and proofs
about its specification claims.

Modelling conventions:
* Python lists are Lean `List`s; Python slices `l[a:b]` are `(l.drop a).take (b - a)`.
* Python strings are Lean `String`s; character-level work happens on `String.data`.
* The filesystem is a finite association list from path strings to file contents.
* Python exceptions are `Except` errors; an uncaught exception is an `Except.error`
  that survives to the caller, a caught one is turned into the handler's result.
-/

namespace Leica

/-! ## utils.py -/

/-- Embedding of `utils.chop`: chop `list_` into `n` chunks.  Mirrors the
source: `each = len(list_) // n`; if `each == 0` return `[list_]`; otherwise
return the `n` slices `list_[i*each:(i+1)*each]`, the last slice extended to
the end of the list. -/
def chop {α : Type} (list_ : List α) (n : Nat) : List (List α) :=
  let size := list_.length
  let each := size / n
  if each = 0 then [list_]
  else (List.range n).map fun i =>
    let start := i * each
    let stop := if i = n - 1 then size else (i + 1) * each
    (list_.drop start).take (stop - start)

lemma join_uniform_chunks {α : Type} (l : List α) (e : Nat) :
    ∀ m : Nat, ((List.range m).map fun i => (l.drop (i * e)).take e).flatten = l.take (m * e) := by
  intro m
  induction m with
  | zero => simp
  | succ k ih =>
    rw [List.range_succ, List.map_append, List.flatten_append, ih]
    simp only [List.map_cons, List.map_nil, List.flatten_cons, List.flatten_nil, List.append_nil]
    rw [Nat.succ_mul, List.take_add]

lemma chop_join {α : Type} (l : List α) (n : Nat) (hn : 1 ≤ n) :
    (chop l n).flatten = l := by
  unfold chop
  by_cases h : l.length / n = 0
  · simp [h]
  · simp only [h, if_false]
    have he : 1 ≤ l.length / n := Nat.one_le_iff_ne_zero.mpr h
    set e := l.length / n with hedef
    have hne : n * e ≤ l.length := by
      rw [hedef, Nat.mul_comm]
      exact Nat.div_mul_le_self _ _
    obtain ⟨m, hm⟩ : ∃ m, n = m + 1 := ⟨n - 1, by omega⟩
    subst hm
    rw [List.range_succ, List.map_append, List.flatten_append]
    have hmap : ((List.range m).map fun i =>
        (l.drop (i * e)).take ((if i = m + 1 - 1 then l.length else (i + 1) * e) - i * e)) =
        (List.range m).map fun i => (l.drop (i * e)).take e := by
      apply List.map_congr_left
      intro i hi
      have : i < m := List.mem_range.mp hi
      have : ¬ (i = m + 1 - 1) := by omega
      simp only [this, if_false]
      congr 1
      rw [Nat.succ_mul]
      omega
    rw [hmap, join_uniform_chunks]
    simp only [List.map_cons, List.map_nil, List.flatten_cons, List.flatten_nil, List.append_nil,
      Nat.add_sub_cancel, if_pos rfl, if_true]
    have hml : m * e ≤ l.length := le_trans (Nat.mul_le_mul_right e (by omega)) hne
    have hlen : (l.drop (m * e)).length = l.length - m * e := List.length_drop _ _
    rw [List.take_of_length_le (by omega : (l.drop (m * e)).length ≤ l.length - m * e)]
    exact List.take_append_drop _ _

/-- Claim C10: for `n ≥ 1` the chunks returned by `chop` concatenate back to
the input list (nothing lost, duplicated or reordered); when `n ≤ len(l)`
there are exactly `n` chunks and the first `n - 1` have length `len(l) / n`
(the last absorbs the remainder); when `0 < len(l) < n` the result is the
single chunk `[l]`. -/
theorem chop_spec {α : Type} (l : List α) (n : Nat) (hn : 1 ≤ n) :
    (chop l n).flatten = l
    ∧ (n ≤ l.length →
        (chop l n).length = n
        ∧ ∀ i, i + 1 < n → ((chop l n).getD i []).length = l.length / n)
    ∧ (0 < l.length → l.length < n → chop l n = [l]) := by
  refine ⟨chop_join l n hn, ?_, ?_⟩
  · intro hnl
    have he : 1 ≤ l.length / n := (Nat.one_le_div_iff (by omega)).mpr hnl
    have h0 : ¬ (l.length / n = 0) := by omega
    constructor
    · unfold chop
      simp [h0]
    · intro i hi
      unfold chop
      simp only [h0, if_false]
      set e := l.length / n with hedef
      have hne : n * e ≤ l.length := by
        rw [hedef, Nat.mul_comm]
        exact Nat.div_mul_le_self _ _
      have hget : ((List.range n).map fun j =>
          (l.drop (j * e)).take ((if j = n - 1 then l.length else (j + 1) * e) - j * e)).getD i []
          = (l.drop (i * e)).take ((if i = n - 1 then l.length else (i + 1) * e) - i * e) := by
        have hlt : i < n := by omega
        rw [List.getD_eq_getElem?_getD, List.getElem?_map, List.getElem?_range hlt]
        rfl
      rw [hget]
      have hne' : ¬ (i = n - 1) := by omega
      simp only [hne', if_false]
      have hstop : (i + 1) * e - i * e = e := by
        rw [Nat.succ_mul]
        omega
      rw [hstop]
      have hie : (i + 1) * e ≤ l.length :=
        le_trans (Nat.mul_le_mul_right e (by omega : i + 1 ≤ n)) hne
      rw [List.length_take, List.length_drop]
      rw [Nat.succ_mul] at hie
      omega
  · intro hpos hlt
    unfold chop
    have : l.length / n = 0 := Nat.div_eq_of_lt hlt
    simp [this]

/-- Witness for `chop_spec` at a concrete input. -/
theorem chop_spec_witness :
    (chop [1, 2, 3, 4, 5] 2).flatten = [1, 2, 3, 4, 5]
    ∧ (2 ≤ 5 →
        (chop [1, 2, 3, 4, 5] 2).length = 2
        ∧ ∀ i, i + 1 < 2 → ((chop [1, 2, 3, 4, 5] 2).getD i []).length = 5 / 2)
    ∧ (0 < 5 → 5 < 2 → chop [1, 2, 3, 4, 5] 2 = [[1, 2, 3, 4, 5]]) := by
  have h := chop_spec [1, 2, 3, 4, 5] 2 (by decide)
  simpa using h

/-! ## Python exceptions -/

/-- The Python exception kinds the embedded code can raise. -/
inductive PyErr : Type
  | ioError
  | assertionError
  | nameError
  | typeError
  | indexError
  | valueError
deriving DecidableEq, Repr

/-! ## experiment.py: attribute parser -/

/-- Numeric value of a decimal digit character. -/
def digitVal (c : Char) : Nat := c.toNat - 48

/-- Value of a list of decimal digit characters (most significant first),
as Python `int` computes it for a digit string. -/
def natOfDigits (ds : List Char) : Nat := ds.foldl (fun a c => a * 10 + digitVal c) 0

/-- There is an occurrence of the pattern `--LETTER<digit><digit>` (the
regex `--X([0-9]{2})`) starting at index `i` of `s`. -/
def matchAt (letter : Char) (s : List Char) (i : Nat) : Bool :=
  decide (i + 5 ≤ s.length
    ∧ s.getD i 'x' = '-'
    ∧ s.getD (i + 1) 'x' = '-'
    ∧ s.getD (i + 2) 'x' = letter
    ∧ (s.getD (i + 3) 'x').isDigit = true
    ∧ (s.getD (i + 4) 'x').isDigit = true)

/-- Embedding of `re.findall('--' + name.upper() + '([0-9]{2})', path)`:
scan left to right; at each index, if the five-character pattern
`--LETTER<digit><digit>` matches, emit the captured digit pair and resume
after it (non-overlapping), otherwise advance one character.  The inner
match peels off the four characters after a head match; its fallback arm is
unreachable because a head match implies at least five characters remain. -/
def findall2 (letter : Char) : List Char → List String
  | [] => []
  | c :: cs =>
    if matchAt letter (c :: cs) 0 then
      match cs with
      | _ :: _ :: f :: g :: rest => ⟨[f, g]⟩ :: findall2 letter rest
      | _ => []
    else
      findall2 letter cs

/-- The scan step expressed with `drop`/`take`, as used by the proofs. -/
lemma findall2_step (letter c : Char) (cs : List Char) :
    findall2 letter (c :: cs) =
      if matchAt letter (c :: cs) 0 then
        ⟨((c :: cs).drop 3).take 2⟩ :: findall2 letter ((c :: cs).drop 5)
      else findall2 letter cs := by
  by_cases h : matchAt letter (c :: cs) 0
  · rw [if_pos h]
    have hlen : 5 ≤ (c :: cs).length := by
      have := (of_decide_eq_true h).1
      omega
    rcases cs with _ | ⟨d, _ | ⟨e, _ | ⟨f, _ | ⟨g, rest⟩⟩⟩⟩
    · simp at hlen
    · simp at hlen
    · simp at hlen
    · simp at hlen
    · simp [findall2, h]
  · rw [if_neg h]
    rcases cs with _ | ⟨d, _ | ⟨e, _ | ⟨f, _ | ⟨g, rest⟩⟩⟩⟩ <;> simp [findall2, h]

/-- Embedding of `experiment.attribute` (the name `attribute` itself is a
Lean keyword): the last captured two-digit group behind `--NAME`, converted
by `int` (here `natOfDigits`, as the captures are guaranteed digit strings),
or `None` when there is no match.  The code only ever passes one-letter
names, so `name` is a `Char`. -/
def attributeVal (path : String) (name : Char) : Option Int :=
  (findall2 name.toUpper path.data).getLast?.map fun m => (natOfDigits m.data : Int)

/-- Embedding of `experiment.attribute_as_str`: as `attributeVal` but the
captured digit string itself is returned. -/
def attribute_as_str (path : String) (name : Char) : Option String :=
  (findall2 name.toUpper path.data).getLast?

/-! ### Semantic characterisation of the scan -/

/-- All indices of `s` at which the pattern occurs. -/
def matchPositions (letter : Char) (s : List Char) : List Nat :=
  (List.range s.length).filter (matchAt letter s)

/-- The two digit characters of the occurrence starting at index `i`. -/
def digitsAt (s : List Char) (i : Nat) : String :=
  ⟨[s.getD (i + 3) ' ', s.getD (i + 4) ' ']⟩

lemma getD_cons_add_one (c : Char) (cs : List Char) (i : Nat) (d : Char) :
    (c :: cs).getD (i + 1) d = cs.getD i d := List.getD_cons_succ

lemma matchAt_cons (letter c : Char) (cs : List Char) (i : Nat) :
    matchAt letter (c :: cs) (i + 1) = matchAt letter cs i := by
  unfold matchAt
  rw [decide_eq_decide]
  rw [show i + 1 + 2 = (i + 2) + 1 from by omega,
    show i + 1 + 3 = (i + 3) + 1 from by omega,
    show i + 1 + 4 = (i + 4) + 1 from by omega]
  simp only [getD_cons_add_one, List.length_cons]
  constructor
  · rintro ⟨h1, h⟩
    exact ⟨by omega, h⟩
  · rintro ⟨h1, h⟩
    exact ⟨by omega, h⟩

lemma digitsAt_cons (c : Char) (cs : List Char) (i : Nat) :
    digitsAt (c :: cs) (i + 1) = digitsAt cs i := by
  unfold digitsAt
  rw [show i + 1 + 3 = (i + 3) + 1 from by omega,
    show i + 1 + 4 = (i + 4) + 1 from by omega]
  simp only [getD_cons_add_one]

lemma matchPositions_cons (letter c : Char) (cs : List Char) :
    matchPositions letter (c :: cs) =
      (if matchAt letter (c :: cs) 0 then [0] else [])
        ++ (matchPositions letter cs).map (· + 1) := by
  unfold matchPositions
  rw [List.length_cons, List.range_succ_eq_map, List.filter_cons]
  have hmap : (List.map Nat.succ (List.range cs.length)).filter (matchAt letter (c :: cs)) =
      ((List.range cs.length).filter (matchAt letter cs)).map (· + 1) := by
    rw [List.filter_map]
    have heq : List.filter (matchAt letter (c :: cs) ∘ Nat.succ) (List.range cs.length)
        = List.filter (matchAt letter cs) (List.range cs.length) := by
      apply List.filter_congr
      intro i _
      simp only [Function.comp, Nat.succ_eq_add_one]
      exact matchAt_cons letter c cs i
    rw [heq]
    try rfl
    try (apply List.map_congr_left; intro i _; simp [Nat.succ_eq_add_one])
  by_cases h : matchAt letter (c :: cs) 0
  · rw [if_pos h, if_pos h, hmap]
    rfl
  · rw [if_neg h]
    simp only [Bool.not_eq_true] at h
    rw [h]
    simp only [Bool.false_eq_true, if_false, List.nil_append]
    exact hmap

lemma isDigit_ne_dash {c : Char} (h : c.isDigit = true) : c ≠ '-' := by
  intro he
  subst he
  simp [Char.isDigit] at h

lemma matchAt_drop (letter : Char) (s : List Char) (k i : Nat) :
    matchAt letter (s.drop k) i = matchAt letter s (k + i) := by
  unfold matchAt
  rw [decide_eq_decide]
  have hg : ∀ j : Nat, (s.drop k).getD (i + j) 'x' = s.getD (k + i + j) 'x' := by
    intro j
    rw [List.getD_eq_getElem?_getD, List.getD_eq_getElem?_getD, List.getElem?_drop,
      show k + (i + j) = k + i + j from by omega]
  have hg0 : (s.drop k).getD i 'x' = s.getD (k + i) 'x' := by
    have := hg 0
    simpa using this
  rw [hg0, hg 1, hg 2, hg 3, hg 4, List.length_drop]
  constructor
  · rintro ⟨h1, h⟩
    exact ⟨by omega, h⟩
  · rintro ⟨h1, h⟩
    refine ⟨by omega, h⟩

lemma digitsAt_drop (s : List Char) (k i : Nat) :
    digitsAt (s.drop k) i = digitsAt s (k + i) := by
  unfold digitsAt
  have hg : ∀ j : Nat, (s.drop k).getD (i + j) ' ' = s.getD (k + i + j) ' ' := by
    intro j
    rw [List.getD_eq_getElem?_getD, List.getD_eq_getElem?_getD, List.getElem?_drop,
      show k + (i + j) = k + i + j from by omega]
  rw [hg 3, hg 4]

/-- With a head match, the match positions are `0` followed by the match
positions after the five consumed characters (matches never overlap when
the letter is not a dash). -/
lemma matchPositions_head_true (letter : Char) (s : List Char) (hl : letter ≠ '-')
    (h : matchAt letter s 0 = true) :
    matchPositions letter s = 0 :: (matchPositions letter (s.drop 5)).map (· + 5) := by
  have hp := of_decide_eq_true h
  obtain ⟨hlen, h0, h1, h2, h3, h4⟩ := hp
  have hlen5 : s.length = 5 + (s.length - 5) := by omega
  unfold matchPositions
  rw [hlen5, List.range_add, List.filter_append]
  have hfive : (List.range 5).filter (matchAt letter s) = [0] := by
    have e1 : matchAt letter s 1 = false := by
      apply decide_eq_false
      rintro ⟨-, -, hb, -⟩
      rw [show (1 : Nat) + 1 = 0 + 2 from rfl] at hb
      rw [hb] at h2
      exact hl h2.symm
    have e2 : matchAt letter s 2 = false := by
      apply decide_eq_false
      rintro ⟨-, hb, -⟩
      rw [show (2 : Nat) = 0 + 2 from rfl] at hb
      rw [hb] at h2
      exact hl h2.symm
    have e3 : matchAt letter s 3 = false := by
      apply decide_eq_false
      rintro ⟨-, hb, -⟩
      rw [show (3 : Nat) = 0 + 3 from rfl] at hb
      rw [hb] at h3
      simp [Char.isDigit] at h3
    have e4 : matchAt letter s 4 = false := by
      apply decide_eq_false
      rintro ⟨-, hb, -⟩
      rw [show (4 : Nat) = 0 + 4 from rfl] at hb
      rw [hb] at h4
      simp [Char.isDigit] at h4
    show List.filter (matchAt letter s) [0, 1, 2, 3, 4] = [0]
    simp [List.filter, h, e1, e2, e3, e4]
  rw [hfive]
  have hrest : (List.filter (matchAt letter s) ((List.range (s.length - 5)).map (5 + ·))) =
      ((List.range (s.length - 5)).filter (matchAt letter (s.drop 5))).map (· + 5) := by
    rw [List.filter_map]
    have : ((List.range (s.length - 5)).filter ((matchAt letter s) ∘ (5 + ·))) =
        ((List.range (s.length - 5)).filter (matchAt letter (s.drop 5))) := by
      congr 1
      funext i
      simp only [Function.comp]
      exact (matchAt_drop letter s 5 i).symm
    rw [this]
    apply List.map_congr_left
    intro i _
    omega
  rw [List.length_drop, ← hrest]
  rfl

lemma take2_drop3 (s : List Char) (h : 5 ≤ s.length) :
    (s.drop 3).take 2 = [s.getD 3 ' ', s.getD 4 ' '] := by
  have h3 : 3 < s.length := by omega
  have h4 : 4 < s.length := by omega
  rw [List.drop_eq_getElem_cons h3, List.drop_eq_getElem_cons h4]
  rw [List.getD_eq_getElem s ' ' h3, List.getD_eq_getElem s ' ' h4]
  rfl

/-- The scan returns exactly the digit pairs of the match positions, in
order, provided the letter is not itself a dash (true of every A–Z code). -/
lemma findall2_eq_matchPositions (letter : Char) (hl : letter ≠ '-') :
    ∀ s : List Char, findall2 letter s = (matchPositions letter s).map (digitsAt s) := by
  have main : ∀ (n : Nat) (s : List Char), s.length ≤ n →
      findall2 letter s = (matchPositions letter s).map (digitsAt s) := by
    intro n
    induction n with
    | zero =>
      intro s hs
      have : s = [] := List.length_eq_zero.mp (by omega)
      subst this
      simp [findall2, matchPositions]
    | succ n ih =>
      intro s hs
      match s with
      | [] =>
        simp [findall2, matchPositions]
      | c :: cs =>
        rw [findall2_step]
        by_cases h : matchAt letter (c :: cs) 0
        · rw [if_pos h, matchPositions_head_true letter _ hl h]
          have hlen : 5 ≤ (c :: cs).length := by
            have := (of_decide_eq_true h).1
            omega
          rw [List.map_cons, List.map_map]
          congr 1
          · rw [take2_drop3 _ hlen]
            rfl
          · rw [ih ((c :: cs).drop 5) (by rw [List.length_drop]; simp at hs ⊢; omega)]
            apply List.map_congr_left
            intro i _
            simp only [Function.comp]
            rw [digitsAt_drop]
            congr 1
            omega
        · rw [if_neg h, matchPositions_cons]
          simp only [Bool.not_eq_true] at h
          rw [h]
          simp only [Bool.false_eq_true, if_false, List.nil_append]
          rw [ih cs (by simp at hs ⊢; omega), List.map_map]
          apply List.map_congr_left
          intro i _
          simp only [Function.comp]
          exact (digitsAt_cons c cs i).symm
  intro s
  exact main s.length s le_rfl

lemma matchAt_of_ge (letter : Char) (s : List Char) (i : Nat) (h : s.length < i + 5) :
    matchAt letter s i = false := by
  apply decide_eq_false
  rintro ⟨h1, -⟩
  omega

lemma mem_matchPositions {letter : Char} {s : List Char} {i : Nat} :
    i ∈ matchPositions letter s ↔ matchAt letter s i = true := by
  unfold matchPositions
  rw [List.mem_filter]
  constructor
  · rintro ⟨-, h⟩
    exact h
  · intro h
    refine ⟨List.mem_range.mpr ?_, h⟩
    have := (of_decide_eq_true h).1
    omega

lemma getLast?_eq_of_max (l : List Nat) (hs : l.Pairwise (· < ·)) (i : Nat)
    (hi : i ∈ l) (hmax : ∀ j ∈ l, j ≤ i) : l.getLast? = some i := by
  induction l with
  | nil => cases hi
  | cons a t ih =>
    cases t with
    | nil =>
      have : i = a := by
        cases hi with
        | head => rfl
        | tail _ h => cases h
      subst this
      rfl
    | cons b u =>
      rw [List.getLast?_cons_cons]
      apply ih
      · exact (List.pairwise_cons.mp hs).2
      · cases hi with
        | head =>
          exfalso
          have hab : i < b := (List.pairwise_cons.mp hs).1 b (by simp)
          have hbi : b ≤ i := hmax b (by simp)
          omega
        | tail _ h => exact h
      · intro j hj
        exact hmax j (List.mem_cons_of_mem a hj)

/-- Claim C4 (amended): `attribute` scans `path` for all non-overlapping
occurrences of two literal dashes, the upper-cased code letter, then a
group of EXACTLY TWO decimal digits (the source regex is `[0-9]{2}`, not
`[0-9]{2,4}`), and returns the last match's digits as an integer
(`attribute_as_str` the digit string itself), or `None` when no match
exists.  `matchAt` states occurrence of the five-character pattern at an
index, so the last match is the matching index after which nothing
matches. -/
theorem attribute_exact_two_digits (path : String) (name : Char)
    (hl : name.toUpper ≠ '-') :
    attributeVal path name
        = (attribute_as_str path name).map (fun m => (natOfDigits m.data : Int))
    ∧ (attribute_as_str path name = none
        ↔ ∀ i, matchAt name.toUpper path.data i = false)
    ∧ (∀ i, matchAt name.toUpper path.data i = true →
        (∀ j, i < j → matchAt name.toUpper path.data j = false) →
        attribute_as_str path name = some (digitsAt path.data i)) := by
  refine ⟨?_, ?_, ?_⟩
  · unfold attributeVal attribute_as_str
    cases (findall2 name.toUpper path.data).getLast? <;> rfl
  · unfold attribute_as_str
    rw [findall2_eq_matchPositions _ hl, List.getLast?_map]
    constructor
    · intro h
      have h1 : (matchPositions name.toUpper path.data).getLast? = none := by
        cases he : (matchPositions name.toUpper path.data).getLast? with
        | none => rfl
        | some v =>
          rw [he] at h
          simp at h
      have h2 : matchPositions name.toUpper path.data = [] :=
        List.getLast?_eq_none_iff.mp h1
      intro i
      by_cases hlen : path.data.length < i + 5
      · exact matchAt_of_ge _ _ _ hlen
      · by_contra hc
        simp only [Bool.not_eq_false] at hc
        have : i ∈ matchPositions name.toUpper path.data := mem_matchPositions.mpr hc
        rw [h2] at this
        cases this
    · intro h
      have h2 : matchPositions name.toUpper path.data = [] := by
        unfold matchPositions
        rw [List.filter_eq_nil_iff]
        intro a _
        rw [h a]
        simp
      rw [h2]
      rfl
  · intro i hi hmax
    unfold attribute_as_str
    rw [findall2_eq_matchPositions _ hl, List.getLast?_map]
    have hlast : (matchPositions name.toUpper path.data).getLast? = some i := by
      apply getLast?_eq_of_max
      · exact List.Pairwise.filter _ (List.pairwise_lt_range _)
      · exact mem_matchPositions.mpr hi
      · intro j hj
        by_contra hij
        push_neg at hij
        have hf := hmax j hij
        have ht := mem_matchPositions.mp hj
        rw [hf] at ht
        cases ht
    rw [hlast]
    rfl

/-- Witness for `attribute_exact_two_digits`: path `--U07xy--U09z` has
matches at indices 0 and 7 and the scan returns the last one. -/
theorem attribute_exact_two_digits_witness :
    ('u'.toUpper ≠ '-')
    ∧ (attributeVal "--U07xy--U09z" 'u'
        = (attribute_as_str "--U07xy--U09z" 'u').map (fun m => (natOfDigits m.data : Int))
      ∧ (attribute_as_str "--U07xy--U09z" 'u' = none
          ↔ ∀ i, matchAt 'u'.toUpper "--U07xy--U09z".data i = false)
      ∧ (∀ i, matchAt 'u'.toUpper "--U07xy--U09z".data i = true →
          (∀ j, i < j → matchAt 'u'.toUpper "--U07xy--U09z".data j = false) →
          attribute_as_str "--U07xy--U09z" 'u'
            = some (digitsAt "--U07xy--U09z".data i))) :=
  ⟨by decide, attribute_exact_two_digits "--U07xy--U09z" 'u' (by decide)⟩

/-- Claim C4's reading of the scan, modelled from the claim's words: the
regex tolerates digit groups of 2 to 4 characters (`[0-9]{2,4}`, greedy),
and the last match's digits are returned as an integer. -/
def findall24 (letter : Char) : List Char → List String
  | [] => []
  | c :: cs =>
    if matchAt letter (c :: cs) 0 then
      match cs with
      | _ :: _ :: f :: g :: rest =>
        match rest with
        | h1 :: h2 :: rest2 =>
          if h1.isDigit then
            if h2.isDigit then ⟨[f, g, h1, h2]⟩ :: findall24 letter rest2
            else ⟨[f, g, h1]⟩ :: findall24 letter (h2 :: rest2)
          else ⟨[f, g]⟩ :: findall24 letter (h1 :: h2 :: rest2)
        | [h1] =>
          if h1.isDigit then ⟨[f, g, h1]⟩ :: findall24 letter []
          else ⟨[f, g]⟩ :: findall24 letter [h1]
        | [] => [⟨[f, g]⟩]
      | _ => []
    else
      findall24 letter cs

/-- The claim's version of `attribute`, built on the 2-to-4-digit scan. -/
def attributeClaim (path : String) (name : Char) : Option Int :=
  (findall24 name.toUpper path.data).getLast?.map fun m => (natOfDigits m.data : Int)

/-- Counterexample to claim C4 as stated: on `--X0123` a 2-to-4-digit
tolerant scan returns 123, but the code's `attribute` (exactly two digits)
returns 1. -/
theorem attribute_digits_counterexample :
    attributeClaim "--X0123" 'x' = some 123
    ∧ attributeVal "--X0123" 'x' = some 1
    ∧ attributeVal "--X0123" 'x' ≠ attributeClaim "--X0123" 'x' := by
  refine ⟨by decide, by decide, by decide⟩

/-! ## experiment.py: well_images, columns, rows (claim C5) -/

/-- Embedding of `Experiment.well_images`: the images of the experiment
whose `u`/`v` attributes equal the requested well coordinates.  The
`Experiment.images` property is passed explicitly as the list of image
paths its glob produced. -/
def well_images (images : List String) (well_x well_y : Int) : List String :=
  images.filter fun i =>
    attributeVal i 'u' == some well_x && attributeVal i 'v' == some well_y

/-- Embedding of `Experiment.columns`:
`list(set([attribute(img, 'y') for img in well_images(...)]))`.
Python's set iteration order is unspecified; it is modelled with `dedup`,
and the theorems about it only use membership. -/
def columns (images : List String) (well_x well_y : Int) : List (Option Int) :=
  ((well_images images well_x well_y).map fun img => attributeVal img 'y').dedup

/-- Embedding of `Experiment.rows`:
`list(set([attribute(img, 'x') for img in well_images(...)]))`. -/
def rows (images : List String) (well_x well_y : Int) : List (Option Int) :=
  ((well_images images well_x well_y).map fun img => attributeVal img 'x').dedup

/-- Claim C5's reading of `columns`: the distinct X attribute values of the
well's images (modelled from the claim's words, to compare with the code's
`columns`). -/
def columnsClaimX (images : List String) (well_x well_y : Int) : List (Option Int) :=
  ((well_images images well_x well_y).map fun img => attributeVal img 'x').dedup

/-- Counterexample to claim C5 as stated: for a well containing the single
image `image--U00--V00--X01--Y02.tif`, the code's `columns` is the set of
Y values `{2}`, not the set of X values `{1}` the claim describes. -/
theorem columns_counterexample :
    columns ["image--U00--V00--X01--Y02.tif"] 0 0 = [some 2]
    ∧ columnsClaimX ["image--U00--V00--X01--Y02.tif"] 0 0 = [some 1]
    ∧ columns ["image--U00--V00--X01--Y02.tif"] 0 0
        ≠ columnsClaimX ["image--U00--V00--X01--Y02.tif"] 0 0 := by
  refine ⟨by decide, by decide, by decide⟩

/-- Claim C5 (amended): with X and Y swapped relative to the claim,
`columns` is the set of distinct Y attribute values among the well's
images, and `rows` the set of distinct X attribute values, where the
well's images are those whose U/V attributes equal the well coordinates. -/
theorem columns_rows_swapped (images : List String) (wx wy : Int) :
    (∀ v, v ∈ columns images wx wy ↔ ∃ img ∈ images,
        attributeVal img 'u' = some wx ∧ attributeVal img 'v' = some wy
          ∧ attributeVal img 'y' = v)
    ∧ (∀ v, v ∈ rows images wx wy ↔ ∃ img ∈ images,
        attributeVal img 'u' = some wx ∧ attributeVal img 'v' = some wy
          ∧ attributeVal img 'x' = v) := by
  constructor <;> intro v <;>
    simp [columns, rows, well_images, List.mem_dedup, List.mem_filter,
      and_assoc, Bool.and_eq_true, beq_iff_eq]

/-! ## Path-string helpers (os.path functions used by compress/decompress) -/

/-- Index of the last character of `cs` satisfying `p`, if any. -/
def lastIdxP (p : Char → Bool) (cs : List Char) : Option Nat :=
  ((List.range cs.length).filter (fun i => p (cs.getD i ' '))).getLast?

/-- Start index of the basename: one past the last `/`, or `0`. -/
def sepBound (cs : List Char) : Nat :=
  match lastIdxP (fun c => c == '/') cs with
  | some j => j + 1
  | none => 0

/-- Case split of `splitext` on the position of the last dot. -/
def splitextAux (s : String) : Option Nat → String × String
  | none => (s, "")
  | some di =>
    if sepBound s.data ≤ di
        ∧ ((s.data.drop (sepBound s.data)).take (di - sepBound s.data)).any
            (fun c => c != '.') then
      (⟨s.data.take di⟩, ⟨s.data.drop di⟩)
    else (s, "")

/-- Embedding of `os.path.splitext` (posixpath flavour): split at the last
dot, provided it lies after the last separator and the basename does not
consist solely of leading dots up to it. -/
def splitext (s : String) : String × String :=
  splitextAux s (lastIdxP (fun c => c == '.') s.data)

/-- Largest start index at which `pat` occurs in `cs` as a contiguous
substring, if any. -/
def lastSubstrIdx (pat : List Char) (cs : List Char) : Option Nat :=
  ((List.range (cs.length + 1)).filter (fun i => pat.isPrefixOf (cs.drop i))).getLast?

/-- Embedding of `new_filename.rsplit('.ome', 1)[0]`: everything before the
last occurrence of `.ome`, or the whole string if absent. -/
def rsplitOme (s : String) : String :=
  match lastSubstrIdx ".ome".data s.data with
  | some i => ⟨s.data.take i⟩
  | none => s

/-- Embedding of `os.path.basename`. -/
def basename (s : String) : String := ⟨s.data.drop (sepBound s.data)⟩

/-- Embedding of `os.path.join` on two components (posixpath flavour). -/
def joinPath (a b : String) : String :=
  if b.data.getD 0 ' ' == '/' then b
  else if a.data.isEmpty || (a.data.getLast? == some '/') then a ++ b
  else a ++ "/" ++ b

/-- Python slice `s[:-k]`. -/
def pyDropRight (s : String) (k : Nat) : String := ⟨s.data.take (s.data.length - k)⟩

/-! ## Python str/int conversion -/

/-- Decimal digits of `n`, least significant first, with explicit fuel so
the kernel can evaluate it. -/
def natToDigitsAux : Nat → Nat → List Char
  | 0, _ => []
  | _, 0 => []
  | fuel + 1, n + 1 =>
    Char.ofNat (48 + (n + 1) % 10) :: natToDigitsAux fuel ((n + 1) / 10)

/-- Python `str` of a natural number. -/
def natToStr (n : Nat) : String :=
  match n with
  | 0 => "0"
  | m + 1 => ⟨(natToDigitsAux (m + 1) (m + 1)).reverse⟩

/-- Python `str` of an integer. -/
def intToStr (i : Int) : String :=
  if i < 0 then "-" ++ natToStr i.natAbs else natToStr i.natAbs

/-- Embedding of Python `int(s)` restricted to the shapes the code feeds
it: an optional leading minus sign followed by decimal digits; anything
else raises `ValueError`. -/
def pyInt (s : String) : Except PyErr Int :=
  if s.data.getD 0 ' ' == '-' then
    if !(s.data.drop 1).isEmpty && (s.data.drop 1).all Char.isDigit then
      .ok (-(natOfDigits (s.data.drop 1) : Int))
    else .error .valueError
  else
    if !s.data.isEmpty && s.data.all Char.isDigit then .ok ((natOfDigits s.data : Int))
    else .error .valueError

/-! ### Lemmas about the path-string helpers -/

lemma filter_range_append (p : Char → Bool) (b t : List Char) :
    (List.range (b ++ t).length).filter (fun i => p ((b ++ t).getD i ' ')) =
      ((List.range b.length).filter (fun i => p (b.getD i ' ')))
        ++ (((List.range t.length).filter (fun i => p (t.getD i ' '))).map (b.length + ·)) := by
  rw [List.length_append, List.range_add, List.filter_append]
  congr 1
  · apply List.filter_congr
    intro i hi
    have hlt : i < b.length := List.mem_range.mp hi
    rw [List.getD_append _ _ _ _ hlt]
  · rw [List.filter_map]
    have heq : ((List.range t.length).filter
          ((fun i => p ((b ++ t).getD i ' ')) ∘ (b.length + ·)))
        = (List.range t.length).filter (fun i => p (t.getD i ' ')) := by
      apply List.filter_congr
      intro i _
      simp only [Function.comp]
      rw [List.getD_append_right _ _ _ _ (Nat.le_add_right _ _), Nat.add_sub_cancel_left]
    rw [heq]

lemma lastIdxP_append (p : Char → Bool) (b t : List Char) :
    lastIdxP p (b ++ t) =
      (((List.range t.length).filter (fun i => p (t.getD i ' '))).getLast?.map
        (b.length + ·)).or (lastIdxP p b) := by
  unfold lastIdxP
  rw [filter_range_append, List.getLast?_append, List.getLast?_map]

lemma sepBound_le (cs : List Char) : sepBound cs ≤ cs.length := by
  unfold sepBound lastIdxP
  cases hl : ((List.range cs.length).filter (fun i => (cs.getD i ' ') == '/')).getLast? with
  | none => exact Nat.zero_le _
  | some j =>
    show j + 1 ≤ cs.length
    have hj : j ∈ (List.range cs.length).filter (fun i => (cs.getD i ' ') == '/') :=
      List.mem_of_getLast?_eq_some hl
    have hjl : j < cs.length := List.mem_range.mp (List.mem_of_mem_filter hj)
    omega

lemma sepBound_append (b t : List Char)
    (ht : (List.range t.length).filter (fun i => (t.getD i ' ') == '/') = []) :
    sepBound (b ++ t) = sepBound b := by
  unfold sepBound
  rw [lastIdxP_append, ht]
  rfl

lemma splitext_ometif (b : String) :
    splitext (b ++ ".ome.tif") = (b ++ ".ome", ".tif") := by
  unfold splitext
  have hdot : lastIdxP (fun c => c == '.') (b.data ++ ".ome.tif".data)
      = some (b.data.length + 4) := by
    rw [lastIdxP_append]
    have h1 : ((List.range ".ome.tif".data.length).filter
        (fun i => (".ome.tif".data.getD i ' ') == '.')).getLast? = some 4 := by decide
    rw [h1]
    rfl
  rw [String.data_append, hdot, splitextAux, String.data_append]
  have hsep : sepBound (b.data ++ ".ome.tif".data) = sepBound b.data :=
    sepBound_append _ _ (by decide)
  have hsb : sepBound b.data ≤ b.data.length := sepBound_le _
  rw [hsep]
  have hdrop : (b.data ++ ".ome.tif".data).drop (sepBound b.data)
      = b.data.drop (sepBound b.data) ++ ".ome.tif".data := by
    rw [List.drop_append_eq_append_drop, Nat.sub_eq_zero_of_le hsb, List.drop_zero]
  have htake : ((b.data ++ ".ome.tif".data).drop (sepBound b.data)).take
        (b.data.length + 4 - sepBound b.data)
      = b.data.drop (sepBound b.data) ++ ".ome.tif".data.take 4 := by
    rw [hdrop, List.take_append_eq_append_take]
    have hlen : (b.data.drop (sepBound b.data)).length = b.data.length - sepBound b.data :=
      List.length_drop _ _
    rw [List.take_of_length_le (by omega), hlen]
    have h4 : b.data.length + 4 - sepBound b.data - (b.data.length - sepBound b.data) = 4 := by
      omega
    rw [h4]
  have hcond : sepBound b.data ≤ b.data.length + 4
      ∧ (((b.data ++ ".ome.tif".data).drop (sepBound b.data)).take
          (b.data.length + 4 - sepBound b.data)).any (fun c => c != '.') = true := by
    refine ⟨by omega, ?_⟩
    rw [htake, List.any_append]
    have : (".ome.tif".data.take 4).any (fun c => c != '.') = true := by decide
    rw [this, Bool.or_true]
  rw [if_pos hcond]
  have ht1 : (b.data ++ ".ome.tif".data).take (b.data.length + 4)
      = b.data ++ ".ome.tif".data.take 4 := List.take_append 4
  have ht2 : (b.data ++ ".ome.tif".data).drop (b.data.length + 4)
      = ".ome.tif".data.drop 4 := List.drop_append 4
  rw [ht1, ht2]
  rfl

/-- The basename of `b` contains a character other than `.` (every real
image path satisfies this; it rules out degenerate paths like `""` or
`"dir/..."` on which Python's `splitext` declines to split). -/
def goodBase (b : String) : Bool :=
  (b.data.drop (sepBound b.data)).any (fun c => c != '.')

lemma splitext_png (b : String) (hb : goodBase b = true) :
    splitext (b ++ ".png") = (b, ".png") := by
  unfold splitext
  have hdot : lastIdxP (fun c => c == '.') (b.data ++ ".png".data)
      = some (b.data.length + 0) := by
    rw [lastIdxP_append]
    have h1 : ((List.range ".png".data.length).filter
        (fun i => (".png".data.getD i ' ') == '.')).getLast? = some 0 := by decide
    rw [h1]
    rfl
  rw [String.data_append, hdot, splitextAux, String.data_append]
  have hsep : sepBound (b.data ++ ".png".data) = sepBound b.data :=
    sepBound_append _ _ (by decide)
  have hsb : sepBound b.data ≤ b.data.length := sepBound_le _
  rw [hsep]
  have hdrop : (b.data ++ ".png".data).drop (sepBound b.data)
      = b.data.drop (sepBound b.data) ++ ".png".data := by
    rw [List.drop_append_eq_append_drop, Nat.sub_eq_zero_of_le hsb, List.drop_zero]
  have htake : ((b.data ++ ".png".data).drop (sepBound b.data)).take
        (b.data.length + 0 - sepBound b.data)
      = b.data.drop (sepBound b.data) := by
    rw [hdrop, List.take_append_of_le_length (by rw [List.length_drop]; omega),
      List.take_of_length_le (by rw [List.length_drop]; omega)]
  have hcond : sepBound b.data ≤ b.data.length + 0
      ∧ (((b.data ++ ".png".data).drop (sepBound b.data)).take
          (b.data.length + 0 - sepBound b.data)).any (fun c => c != '.') = true := by
    refine ⟨by omega, ?_⟩
    rw [htake]
    exact hb
  rw [if_pos hcond]
  have ht1 : (b.data ++ ".png".data).take (b.data.length + 0)
      = b.data ++ ".png".data.take 0 := List.take_append 0
  have ht2 : (b.data ++ ".png".data).drop (b.data.length + 0)
      = ".png".data.drop 0 := List.drop_append 0
  rw [ht1, ht2]
  simp

lemma lastSubstrIdx_append_pat (pat : List Char) (b t : List Char)
    (hpat : ((List.range (t.length + 1)).filter
        (fun i => pat.isPrefixOf (t.drop i))).getLast? = some 0) :
    lastSubstrIdx pat (b ++ t) = some b.length := by
  unfold lastSubstrIdx
  rw [List.length_append, show b.length + t.length + 1 = b.length + (t.length + 1) from by omega,
    List.range_add, List.filter_append, List.getLast?_append]
  have hmap : ((List.range (t.length + 1)).map (b.length + ·)).filter
        (fun i => pat.isPrefixOf ((b ++ t).drop i))
      = ((List.range (t.length + 1)).filter (fun i => pat.isPrefixOf (t.drop i))).map
          (b.length + ·) := by
    rw [List.filter_map]
    congr 1
    apply List.filter_congr
    intro i _
    simp only [Function.comp]
    rw [List.drop_append]
  rw [hmap, List.getLast?_map, hpat]
  rfl

lemma rsplitOme_ome (b : String) : rsplitOme (b ++ ".ome") = b := by
  unfold rsplitOme
  rw [String.data_append, lastSubstrIdx_append_pat _ _ _ (by decide)]
  show (⟨(b.data ++ ".ome".data).take b.data.length⟩ : String) = b
  rw [List.take_left' rfl]

/-- `new_filename[:-4]` recovers the base from `base + ".png"`. -/
lemma pyDropRight_png (b : String) : pyDropRight (b ++ ".png") 4 = b := by
  unfold pyDropRight
  rw [String.data_append, List.length_append, show ".png".data.length = 4 from rfl,
    Nat.add_sub_cancel, List.take_left' rfl]

/-! ### String disequalities used by the filesystem reasoning -/

lemma append_suffix_ne (b : String) {s t : String} (h : s.data.length ≠ t.data.length) :
    b ++ s ≠ b ++ t := by
  intro he
  have hd := congrArg (fun z : String => z.data.length) he
  simp only [String.data_append, List.length_append] at hd
  omega

lemma getLast_append_suffix (b t : String) (ht : t.data ≠ []) :
    (b ++ t).data.getLast? = t.data.getLast? := by
  rw [String.data_append, List.getLast?_append]
  cases hc : t.data.getLast? with
  | none => exact absurd (List.getLast?_eq_none_iff.mp hc) ht
  | some c => rfl

lemma ne_of_data_getLast_ne {s t : String} (h : s.data.getLast? ≠ t.data.getLast?) :
    s ≠ t := by
  intro he
  exact h (by rw [he])

lemma png_ne_json (x y : String) : x ++ ".png" ≠ y ++ ".json" := by
  apply ne_of_data_getLast_ne
  rw [getLast_append_suffix _ _ (by decide), getLast_append_suffix _ _ (by decide)]
  decide

lemma ometif_ne_json (x y : String) : x ++ ".ome.tif" ≠ y ++ ".json" := by
  apply ne_of_data_getLast_ne
  rw [getLast_append_suffix _ _ (by decide), getLast_append_suffix _ _ (by decide)]
  decide

lemma ometif_ne_png (x y : String) : x ++ ".ome.tif" ≠ y ++ ".png" := by
  apply ne_of_data_getLast_ne
  rw [getLast_append_suffix _ _ (by decide), getLast_append_suffix _ _ (by decide)]
  decide

/-! ### str/int round trip -/

lemma digitChar_spec (d : Nat) (h : d < 10) :
    (Char.ofNat (48 + d)).isDigit = true
      ∧ digitVal (Char.ofNat (48 + d)) = d
      ∧ Char.ofNat (48 + d) ≠ '-' := by
  interval_cases d <;> exact ⟨by decide, by decide, by decide⟩

lemma natOfDigits_concat (ds : List Char) (c : Char) :
    natOfDigits (ds ++ [c]) = natOfDigits ds * 10 + digitVal c := by
  unfold natOfDigits
  rw [List.foldl_append]
  rfl

lemma natToDigitsAux_spec :
    ∀ fuel n, n ≤ fuel →
      natOfDigits (natToDigitsAux fuel n).reverse = n
      ∧ ∀ c ∈ natToDigitsAux fuel n, c.isDigit = true ∧ c ≠ '-' := by
  intro fuel
  induction fuel with
  | zero =>
    intro n hn
    have : n = 0 := by omega
    subst this
    exact ⟨rfl, by intro c hc; cases hc⟩
  | succ f ih =>
    intro n hn
    match n with
    | 0 => exact ⟨rfl, by intro c hc; cases hc⟩
    | m + 1 =>
      have hdiv : (m + 1) / 10 ≤ f := by
        have : (m + 1) / 10 < m + 1 := Nat.div_lt_self (by omega) (by omega)
        omega
      have hrec := ih ((m + 1) / 10) hdiv
      have hd := digitChar_spec ((m + 1) % 10) (Nat.mod_lt _ (by omega))
      constructor
      · show natOfDigits ((Char.ofNat (48 + (m + 1) % 10)
            :: natToDigitsAux f ((m + 1) / 10)).reverse) = m + 1
        rw [List.reverse_cons, natOfDigits_concat, hrec.1, hd.2.1, Nat.mul_comm]
        exact Nat.div_add_mod (m + 1) 10
      · intro c hc
        rw [show natToDigitsAux (f + 1) (m + 1)
            = Char.ofNat (48 + (m + 1) % 10) :: natToDigitsAux f ((m + 1) / 10) from rfl] at hc
        cases hc with
        | head => exact ⟨hd.1, hd.2.2⟩
        | tail _ h => exact hrec.2 c h

lemma natToStr_spec (n : Nat) :
    (natToStr n).data ≠ []
    ∧ (∀ c ∈ (natToStr n).data, c.isDigit = true ∧ c ≠ '-')
    ∧ natOfDigits (natToStr n).data = n := by
  match n with
  | 0 =>
    refine ⟨by decide, ?_, by decide⟩
    intro c hc
    have : c = '0' := by
      cases hc with
      | head => rfl
      | tail _ h => cases h
    subst this
    exact ⟨by decide, by decide⟩
  | m + 1 =>
    obtain ⟨hval, hdig⟩ := natToDigitsAux_spec (m + 1) (m + 1) le_rfl
    have hdata : (natToStr (m + 1)).data = (natToDigitsAux (m + 1) (m + 1)).reverse := rfl
    refine ⟨?_, ?_, ?_⟩
    · rw [hdata]
      intro hnil
      have : natToDigitsAux (m + 1) (m + 1) = [] := by
        cases hx : natToDigitsAux (m + 1) (m + 1) with
        | nil => rfl
        | cons a l =>
          rw [hx] at hnil
          simp at hnil
      rw [show natToDigitsAux (m + 1) (m + 1)
          = Char.ofNat (48 + (m + 1) % 10) :: natToDigitsAux m ((m + 1) / 10) from rfl] at this
      cases this
    · intro c hc
      rw [hdata, List.mem_reverse] at hc
      exact hdig c hc
    · rw [hdata]
      exact hval

lemma pyInt_natToStr (n : Nat) : pyInt (natToStr n) = .ok (n : Int) := by
  obtain ⟨hne, hdig, hval⟩ := natToStr_spec n
  unfold pyInt
  cases hcs : (natToStr n).data with
  | nil => exact absurd hcs hne
  | cons c cs' =>
    have hcmem : c ∈ (natToStr n).data := by
      rw [hcs]
      exact List.mem_cons_self c cs'
    have hc := hdig c hcmem
    have hcd : ((c :: cs').getD 0 ' ' == '-') = false := by
      simp only [List.getD_cons_zero, beq_eq_false_iff_ne, ne_eq]
      exact hc.2
    rw [hcd]
    simp only [Bool.false_eq_true, if_false]
    have hall : (c :: cs').all Char.isDigit = true := by
      rw [← hcs]
      rw [List.all_eq_true]
      intro x hx
      exact (hdig x hx).1
    have hemp : (c :: cs').isEmpty = false := rfl
    rw [hemp, hall]
    simp only [Bool.not_false, Bool.and_true, if_true]
    rw [← hcs, hval]

lemma pyInt_intToStr (i : Int) : pyInt (intToStr i) = .ok i := by
  unfold intToStr
  by_cases h : i < 0
  · rw [if_pos h]
    obtain ⟨hne, hdig, hval⟩ := natToStr_spec i.natAbs
    unfold pyInt
    have hdata : ("-" ++ natToStr i.natAbs).data = '-' :: (natToStr i.natAbs).data := by
      rw [String.data_append]
      rfl
    rw [hdata]
    simp only [List.getD_cons_zero, List.drop_succ_cons, List.drop_zero, beq_self_eq_true,
      if_true, if_pos]
    have hall : (natToStr i.natAbs).data.all Char.isDigit = true := by
      rw [List.all_eq_true]
      intro x hx
      exact (hdig x hx).1
    have hemp : (natToStr i.natAbs).data.isEmpty = false := by
      cases hcs : (natToStr i.natAbs).data with
      | nil => exact absurd hcs hne
      | cons a l => rfl
    rw [hemp, hall]
    simp only [Bool.not_false, Bool.and_true, if_true]
    rw [hval]
    congr 1
    omega
  · rw [if_neg h, pyInt_natToStr]
    congr 1
    omega

lemma intToStr_ne_palette (i : Int) : intToStr i ≠ "palette" := by
  intro he
  have hd : (intToStr i).data = "palette".data := by rw [he]
  unfold intToStr at hd
  by_cases h : i < 0
  · rw [if_pos h, String.data_append] at hd
    have : '-' = 'p' := by
      have := congrArg (fun l => l.getD 0 ' ') hd
      simpa using this
    cases this
  · rw [if_neg h] at hd
    obtain ⟨hne, hdig, -⟩ := natToStr_spec i.natAbs
    cases hcs : (natToStr i.natAbs).data with
    | nil => exact absurd hcs hne
    | cons c cs' =>
      rw [hcs] at hd
      have hcp : c = 'p' := by
        have := congrArg (fun l => l.getD 0 ' ') hd
        simpa using this
      have := (hdig c (by rw [hcs]; exact List.mem_cons_self c cs')).1
      rw [hcp] at this
      cases this

/-! ## Python/JSON values, images, and the filesystem model -/

/-- Python values as they appear in tag dictionaries and loaded JSON:
integers, strings, lists (what `json.load` produces for arrays) and tuples
(what PIL's `tag.as_dict()` contains and what `decompress` reconstructs). -/
inductive PyVal : Type
  | int (n : Int)
  | str (s : String)
  | list (l : List PyVal)
  | tuple (l : List PyVal)

/-- An in-memory PIL image: its mode string (`'L'`, `'P'`, `'I;16'`,
`'I'`, ...), pixel sample values, optional palette, and the TIFF tag
dictionary (`img.tag.as_dict()`), keyed by numeric tag id. -/
structure Img : Type where
  mode : String
  pixels : List Int
  palette : Option (List Int)
  tags : List (Int × PyVal)

/-- A file on disk: an image file (TIFF or PNG, modelled by its decoded
content) or a JSON sidecar (modelled by its parsed object). -/
inductive FileData : Type
  | image (i : Img)
  | jsonF (j : List (String × PyVal))

/-- The filesystem: a finite association list from paths to contents. -/
abbrev FS := List (String × FileData)

def isfile (fs : FS) (p : String) : Bool := fs.any (fun e => e.1 == p)

def readFile (fs : FS) (p : String) : Option FileData :=
  (fs.find? (fun e => e.1 == p)).map (·.2)

/-- `os.remove`. -/
def removeFile (fs : FS) (p : String) : FS := fs.filter (fun e => !(e.1 == p))

/-- Write (create or overwrite) a file.  The filesystem is unordered, so
overwriting is modelled as remove-then-add. -/
def setFile (fs : FS) (p : String) (d : FileData) : FS := (p, d) :: removeFile fs p

lemma isfile_iff_readFile (fs : FS) (p : String) :
    isfile fs p = (readFile fs p).isSome := by
  unfold isfile readFile
  induction fs with
  | nil => rfl
  | cons e t ih =>
    by_cases h : (e.1 == p) = true
    · simp [List.any_cons, List.find?_cons, h]
    · simp only [Bool.not_eq_true] at h
      simp [List.any_cons, List.find?_cons, h, ih]

lemma readFile_removeFile_other (fs : FS) (p q : String) (h : p ≠ q) :
    readFile (removeFile fs q) p = readFile fs p := by
  unfold removeFile readFile
  induction fs with
  | nil => rfl
  | cons e t ih =>
    by_cases he : (e.1 == q) = true
    · have hep : (e.1 == p) = false := by
        have : e.1 = q := by simpa using he
        subst this
        simpa using fun hc => h hc.symm
      rw [List.filter_cons_of_neg (by simp [he])]
      simp only [List.find?_cons, hep]
      exact ih
    · rw [List.filter_cons_of_pos (by simp [he])]
      by_cases hep : (e.1 == p) = true
      · simp only [List.find?_cons, hep]
      · simp only [Bool.not_eq_true] at hep
        simp only [List.find?_cons, hep]
        exact ih

lemma readFile_removeFile_self (fs : FS) (q : String) :
    readFile (removeFile fs q) q = none := by
  unfold removeFile readFile
  induction fs with
  | nil => rfl
  | cons e t ih =>
    by_cases he : (e.1 == q) = true
    · rw [List.filter_cons_of_neg (by simp [he])]
      exact ih
    · rw [List.filter_cons_of_pos (by simp [he])]
      simp only [Bool.not_eq_true] at he
      simp only [List.find?_cons, he]
      exact ih

lemma readFile_setFile_self (fs : FS) (p : String) (d : FileData) :
    readFile (setFile fs p d) p = some d := by
  unfold setFile readFile
  simp [List.find?_cons]

lemma readFile_setFile_other (fs : FS) (p q : String) (d : FileData) (h : p ≠ q) :
    readFile (setFile fs q d) p = readFile fs p := by
  unfold setFile
  have h1 : readFile ((q, d) :: removeFile fs q) p = readFile (removeFile fs q) p := by
    unfold readFile
    have hqp : (q == p) = false := by simpa using fun hc => h hc.symm
    simp only [List.find?_cons, hqp]
  rw [h1]
  exact readFile_removeFile_other fs p q h

lemma isfile_setFile (fs : FS) (p q : String) (d : FileData) :
    isfile (setFile fs q d) p = true ↔ p = q ∨ isfile fs p = true := by
  by_cases h : p = q
  · subst h
    rw [isfile_iff_readFile, readFile_setFile_self]
    simp
  · rw [isfile_iff_readFile, readFile_setFile_other _ _ _ _ h, ← isfile_iff_readFile]
    simp [h]

lemma isfile_removeFile_le (fs : FS) (p q : String)
    (h : isfile (removeFile fs q) p = true) : isfile fs p = true := by
  by_cases hpq : p = q
  · subst hpq
    rw [isfile_iff_readFile, readFile_removeFile_self] at h
    cases h
  · rw [isfile_iff_readFile, readFile_removeFile_other _ _ _ hpq, ← isfile_iff_readFile] at h
    exact h

lemma isfile_removeFile_self (fs : FS) (q : String) :
    isfile (removeFile fs q) q = false := by
  rw [isfile_iff_readFile, readFile_removeFile_self]
  rfl

/-! ## JSON serialisation of the tag dictionary -/

mutual
/-- The JSON round trip on a value: `json.dump` writes tuples as arrays and
`json.load` reads arrays back as lists, so after dump+load every tuple has
become a list. -/
def jfy : PyVal → PyVal
  | .int n => .int n
  | .str s => .str s
  | .list l => .list (jfyList l)
  | .tuple l => .list (jfyList l)

def jfyList : List PyVal → List PyVal
  | [] => []
  | v :: vs => jfy v :: jfyList vs
end

/-- `json.dump` of the tag dictionary written by `compress_blocking`
(lines 513-518): integer keys become decimal strings; when the image is
palette-mode the raw palette is appended under the reserved `palette`
key. -/
def jsonDump (tags : List (Int × PyVal)) (pal : Option (List Int)) : List (String × PyVal) :=
  tags.map (fun kv => (intToStr kv.1, jfy kv.2))
    ++ (match pal with
        | some p => [("palette", PyVal.list (p.map PyVal.int))]
        | none => [])

/-! ## decompress: tag reconstruction -/

def isList : PyVal → Bool
  | .list _ => true
  | _ => false

/-- `val[0]` on a Python value: `TypeError` on an int, `IndexError` on an
empty sequence. -/
def sub0 : PyVal → Except PyErr PyVal
  | .int _ => .error .typeError
  | .str s =>
    match s.data with
    | [] => .error .indexError
    | c :: _ => .ok (.str ⟨[c]⟩)
  | .list [] => .error .indexError
  | .list (x :: _) => .ok x
  | .tuple [] => .error .indexError
  | .tuple (x :: _) => .ok x

/-- `tuple(x)` on a Python value: `TypeError` on an int. -/
def pyTuple : PyVal → Except PyErr PyVal
  | .int _ => .error .typeError
  | .str s => .ok (.tuple (s.data.map fun c => .str ⟨[c]⟩))
  | .list l => .ok (.tuple l)
  | .tuple l => .ok (.tuple l)

/-- Iteration (`for x in val`): `TypeError` on an int. -/
def pyIter : PyVal → Except PyErr (List PyVal)
  | .int _ => .error .typeError
  | .str s => .ok (s.data.map fun c => .str ⟨[c]⟩)
  | .list l => .ok l
  | .tuple l => .ok l

/-- `if type(val) == list: val = tuple(val)` (line 607-608). -/
def listToTuple (v : PyVal) : PyVal :=
  match v with
  | .list l => .tuple l
  | x => x

/-- The per-value conversion of `decompress` (lines 607-611):
`if type(val) == list: val = tuple(val)`;
`if type(val[0]) == list: val = tuple(tuple(x) for x in val)`. -/
def convertVal (v : PyVal) : Except PyErr PyVal :=
  match sub0 (listToTuple v) with
  | .error e => .error e
  | .ok v0 =>
    if isList v0 then
      match pyIter (listToTuple v) with
      | .error e => .error e
      | .ok els =>
        match els.mapM pyTuple with
        | .error e => .error e
        | .ok els2 => .ok (.tuple els2)
    else
      .ok (listToTuple v)

/-- Python dict insertion `d[k] = v`: update in place, or append. -/
def dictInsert (d : List (Int × PyVal)) (k : Int) (v : PyVal) : List (Int × PyVal) :=
  if d.any (fun kv => kv.1 == k) then
    d.map (fun kv => if kv.1 == k then (k, v) else kv)
  else
    d ++ [(k, v)]

/-- The tag-reconstruction loop of `decompress` (lines 599-612): skip the
reserved `palette` key, convert each value, parse the key with `int`, and
build the `info` dict in order.  `TypeError`/`IndexError`/`ValueError`
escape the loop (they are not in the `except` clause). -/
def convertTags : List (String × PyVal) → Except PyErr (List (Int × PyVal)) → Except PyErr (List (Int × PyVal))
  | [], acc => acc
  | kv :: rest, acc =>
    match acc with
    | .error e => .error e
    | .ok info =>
      if kv.1 = "palette" then
        convertTags rest (.ok info)
      else
        match convertVal kv.2 with
        | .error e => .error e
        | .ok val =>
          match pyInt kv.1 with
          | .error e => .error e
          | .ok k => convertTags rest (.ok (dictInsert info k val))

/-- `img.getpalette()` (always present on a P-mode image). -/
def getpalette (img : Img) : List Int := img.palette.getD []

/-- Reading a raw palette value (a flat JSON int array) for
`img.putpalette`. -/
def asIntList : PyVal → Except PyErr (List Int)
  | .list l => l.mapM (fun v => match v with
      | PyVal.int n => Except.ok n
      | _ => Except.error PyErr.typeError)
  | _ => .error .typeError

def lookupStr (tags : List (String × PyVal)) (k : String) : Option PyVal :=
  (tags.find? (fun kv => kv.1 == k)).map (·.2)

/-- The palette check of `decompress` (lines 614-616): when the loaded JSON
has a `palette` key, `img.putpalette` re-establishes palette colour mode. -/
def applyPalette (img : Img) (tags : List (String × PyVal)) : Except PyErr Img :=
  match lookupStr tags "palette" with
  | none => .ok img
  | some v =>
    match asIntList v with
    | .error e => .error e
    | .ok pal => .ok { img with mode := "P", palette := some pal }

/-! ## compress_blocking, compress -/

/-- The candidate output path of `compress_blocking` (lines 487-496):
strip the extension, strip a trailing `.ome`, optionally relocate to
`folder` keeping the basename, append `.png`. -/
def pngCandidate (image : String) (folder : Option String) : String :=
  match folder with
  | some f => joinPath f (basename (rsplitOme (splitext image).1) ++ ".png")
  | none => rsplitOme (splitext image).1 ++ ".png"

/-- The sidecar path: `new_filename[:-4] + '.json'` (line 514). -/
def jsonSidecar (new_filename : String) : String := pyDropRight new_filename 4 ++ ".json"

/-- The mode switches of lines 521-527: palette mode is re-interpreted as
luminance, and `I;16` is converted to `I` (the Pillow PNG round-trip
workaround).  The two source `if`s run in sequence; as `'P' ≠ 'I;16'` they
compose to this single conditional. -/
def switchMode (m : String) : String :=
  if m = "P" then "L" else if m = "I;16" then "I" else m

/-- The two writes of `compress_blocking` (lines 513-531): the JSON sidecar
holding the tags (plus palette for P-mode), then the PNG holding the pixel
data with the switched mode (a PNG carries no TIFF tags and, on this path,
no palette). -/
def compressFiles (fs : FS) (img : Img) (new_filename : String) : FS :=
  setFile
    (setFile fs (jsonSidecar new_filename)
      (.jsonF (jsonDump img.tags (if img.mode = "P" then some (getpalette img) else none))))
    new_filename
    (.image { mode := switchMode img.mode, pixels := img.pixels, palette := none, tags := [] })

/-- Lines 513-535: the writes followed by the optional source deletion. -/
def compressWrite (fs : FS) (image : String) (img : Img) (delete_tif : Bool)
    (new_filename : String) : FS :=
  if delete_tif then removeFile (compressFiles fs img new_filename) image
  else compressFiles fs img new_filename

/-- The `try` body of `compress_blocking` (lines 486-535).  Errors carry
the filesystem at raise time.  The `PNG already exists` branch raises
`NameError`, because line 500 appends to the undefined name
`compressed_images` before its intended `AssertionError` is reached. -/
def compressBlockingInner (fs : FS) (image : String) (delete_tif : Bool)
    (folder : Option String) (force : Bool) : Except (PyErr × FS) (FS × String) :=
  if isfile fs (pngCandidate image folder) && !force then
    .error (.nameError, fs)
  else if (splitext image).2 ≠ ".tif" then
    .error (.assertionError, fs)
  else
    match readFile fs image with
    | some (.image img) =>
      .ok (compressWrite fs image img delete_tif (pngCandidate image folder),
        pngCandidate image folder)
    | _ => .error (.ioError, fs)

/-- Embedding of `compress_blocking` (lines 466-542): `IOError` and
`AssertionError` are caught and reported as an empty-string result; other
exceptions (the `NameError`) propagate. -/
def compress_blocking (fs : FS) (image : String) (delete_tif : Bool)
    (folder : Option String) (force : Bool) : Except (PyErr × FS) (FS × String) :=
  match compressBlockingInner fs image delete_tif folder force with
  | .ok r => .ok r
  | .error (.ioError, fsE) => .ok (fsE, "")
  | .error (.assertionError, fsE) => .ok (fsE, "")
  | .error (e, fsE) => .error (e, fsE)

/-- Embedding of the batch `compress` (lines 435-463).  joblib's
`Parallel` dispatches one `compress_blocking` job per image and collects
the results in input order; the jobs all act on the shared filesystem and
are modelled sequentially.  An uncaught job exception is re-raised by
`Parallel` and aborts the batch. -/
def compressList (fs : FS) (images : List String) (delete_tif : Bool)
    (folder : Option String) : Except (PyErr × FS) (FS × List String) :=
  match images with
  | [] => .ok (fs, [])
  | img :: rest =>
    match compress_blocking fs img delete_tif folder false with
    | .error e => .error e
    | .ok (fs1, r) =>
      match compressList fs1 rest delete_tif folder with
      | .error e => .error e
      | .ok (fs2, rs) => .ok (fs2, r :: rs)

/-- A Python argument that is either a single string or a list of
strings. -/
inductive StrOrList : Type
  | s (x : String)
  | l (xs : List String)

/-- Embedding of `compress` (lines 435-463) including its single-string
shorthand (lines 454-456), which forwards `delete_tif` and `folder`. -/
def compressPy (fs : FS) (images : StrOrList) (delete_tif : Bool)
    (folder : Option String) : Except (PyErr × FS) (FS × List String) :=
  match images with
  | .s x =>
    match compress_blocking fs x delete_tif folder false with
    | .error e => .error e
    | .ok (fs1, r) => .ok (fs1, [r])
  | .l xs => compressList fs xs delete_tif folder

/-! ## decompress -/

/-- The decompress target path (lines 576-583): strip the extension,
append `.ome.tif`, optionally relocating to `folder`. -/
def tifTarget (orig : String) (folder : Option String) : String :=
  match folder with
  | some f => joinPath f (basename (splitext orig).1 ++ ".ome.tif")
  | none => (splitext orig).1 ++ ".ome.tif"

/-- The optional deletions after a successful save (lines 623-626). -/
def decompressCleanup (fs : FS) (orig jsonName : String)
    (delete_png delete_json : Bool) : FS :=
  if delete_json then
    removeFile (if delete_png then removeFile fs orig else fs) jsonName
  else
    if delete_png then removeFile fs orig else fs

/-- One iteration of the `decompress` loop (lines 573-630): the updated
filesystem plus the entry appended to `decompressed_images` (none when the
item failed with a caught `IOError`/`AssertionError`).  Note the
already-exists branch appends the target path before raising its caught
`AssertionError`, so the target still appears in the results.  Uncaught
exceptions (from the tag conversion or `json.load`) propagate. -/
def decompressOne (fs : FS) (orig : String) (delete_png delete_json : Bool)
    (folder : Option String) : Except (PyErr × FS) (FS × Option String) :=
  if isfile fs (tifTarget orig folder) then
    .ok (fs, some (tifTarget orig folder))
  else if (splitext orig).2 ≠ ".png" then
    .ok (fs, none)
  else
    match readFile fs orig with
    | some (.image img) =>
      match readFile fs ((splitext orig).1 ++ ".json") with
      | some (.jsonF tags) =>
        (match convertTags tags (.ok []) with
         | .error e => .error (e, fs)
         | .ok info =>
           match applyPalette img tags with
           | .error e => .error (e, fs)
           | .ok img2 =>
             .ok (decompressCleanup
                 (setFile fs (tifTarget orig folder)
                   (.image { mode := img2.mode, pixels := img2.pixels,
                             palette := img2.palette, tags := info }))
                 orig ((splitext orig).1 ++ ".json") delete_png delete_json,
               some (tifTarget orig folder)))
      | some (.image _) => .error (.valueError, fs)
      | none => .ok (fs, none)
    | some (.jsonF _) => .ok (fs, none)
    | none => .ok (fs, none)

/-- The `decompress` loop over a list of images. -/
def decompressList (fs : FS) (images : List String) (delete_png delete_json : Bool)
    (folder : Option String) : Except (PyErr × FS) (FS × List String) :=
  match images with
  | [] => .ok (fs, [])
  | x :: xs =>
    match decompressOne fs x delete_png delete_json folder with
    | .error e => .error e
    | .ok (fs1, r) =>
      match decompressList fs1 xs delete_png delete_json folder with
      | .error e => .error e
      | .ok (fs2, rs) => .ok (fs2, r.toList ++ rs)

/-- Embedding of `decompress` (lines 546-632) including the single-string
shorthand (lines 566-568), which calls `decompress([images])` and DROPS
the optional arguments (they revert to their defaults). -/
def decompressPy (fs : FS) (images : StrOrList) (delete_png delete_json : Bool)
    (folder : Option String) : Except (PyErr × FS) (FS × List String) :=
  match images with
  | .s x => decompressList fs [x] false false none
  | .l xs => decompressList fs xs delete_png delete_json folder

/-! ## Claim C2: idempotent no-op on an existing PNG (code bug) -/

/-- Claim C2 (code bug): with `a.png` already present and force unset,
`compress_blocking` raises an uncaught `NameError` — line 500 appends to
the undefined name `compressed_images` — instead of returning the existing
output path; even its intended `AssertionError` path would return `''`,
not the path.  No write happens (the error carries the unchanged
filesystem). -/
theorem compress_existing_png_name_error :
    compress_blocking
        [("a.ome.tif", .image ⟨"L", [1], none, []⟩),
         ("a.png", .image ⟨"L", [1], none, []⟩)]
        "a.ome.tif" false none false
      = .error (.nameError,
          [("a.ome.tif", .image ⟨"L", [1], none, []⟩),
           ("a.png", .image ⟨"L", [1], none, []⟩)]) := by
  rfl

/-! ## Claim C7: non-TIFF input (code bug on the already-exists path) -/

/-- Claim C7 (code bug): an existing non-TIFF input such as `b.png` is its
own PNG candidate, so the existing-PNG check fires first and the undefined
`compressed_images` raises an uncaught `NameError` instead of the claimed
empty-string failure; when the candidate does not already exist (e.g. a
`.jpg` input), the claimed behaviour — empty string, filesystem
unmodified — does hold. -/
theorem compress_non_tiff_behaviour :
    compress_blocking [("b.png", .image ⟨"L", [1], none, []⟩)] "b.png" false none false
      = .error (.nameError, [("b.png", .image ⟨"L", [1], none, []⟩)])
    ∧ compress_blocking [("c.jpg", .image ⟨"L", [1], none, []⟩)] "c.jpg" false none false
      = .ok ([("c.jpg", .image ⟨"L", [1], none, []⟩)], "") := by
  exact ⟨rfl, rfl⟩

/-! ## Claim C9: single-string shorthand -/

/-- Claim C9 (amended): a single-string `compress` is equivalent to the
one-element batch with the same optional arguments; a single-string
`decompress` is equivalent to the one-element batch with the optional
arguments reset to their DEFAULTS (lines 566-568 do not forward
`delete_png`, `delete_json`, `folder`). -/
theorem single_string_shorthand (fs : FS) (x : String) (d : Bool)
    (folder : Option String) (dp dj : Bool) :
    compressPy fs (.s x) d folder = compressPy fs (.l [x]) d folder
    ∧ decompressPy fs (.s x) dp dj folder = decompressPy fs (.l [x]) false false none := by
  constructor
  · simp only [compressPy, compressList]
  · rfl

/-- The filesystem of a batch result, for distinguishing outcomes. -/
def resultFS (r : Except (PyErr × FS) (FS × List String)) : FS :=
  match r with
  | .ok (fs', _) => fs'
  | .error (_, fsE) => fsE

def fsC9 : FS :=
  [("a.png", .image ⟨"L", [1], none, []⟩),
   ("a.json", .jsonF [("1", .list [.int 7])])]

/-- Counterexample to claim C9 as stated: with `delete_png` requested, the
single-string `decompress` call is NOT equivalent to the one-element batch
— the optional arguments are dropped, so the string form keeps `a.png`
while the list form deletes it. -/
theorem decompress_single_arg_counterexample :
    isfile (resultFS (decompressPy fsC9 (.s "a.png") true false none)) "a.png" = true
    ∧ isfile (resultFS (decompressPy fsC9 (.l ["a.png"]) true false none)) "a.png" = false
    ∧ decompressPy fsC9 (.s "a.png") true false none
        ≠ decompressPy fsC9 (.l ["a.png"]) true false none := by
  have h1 : isfile (resultFS (decompressPy fsC9 (.s "a.png") true false none)) "a.png"
      = true := by rfl
  have h2 : isfile (resultFS (decompressPy fsC9 (.l ["a.png"]) true false none)) "a.png"
      = false := by rfl
  refine ⟨h1, h2, fun h => ?_⟩
  rw [h] at h1
  rw [h1] at h2
  cases h2

/-! ## Claim C3: batch result counts -/

/-- Counterexample to claim C3 as stated: a batch decompress of one
non-PNG item returns zero results, not one empty/failure marker — failed
items are skipped, not marked (`decompressed_images` is only appended on
success or target-already-exists). -/
theorem decompress_batch_counterexample :
    decompressList [] ["a.jpg"] false false none = .ok ([], [])
    ∧ ([] : List String).length ≠ ["a.jpg"].length := by
  exact ⟨rfl, by decide⟩

lemma data_append_ne_nil (a b : String) (hb : b.data ≠ []) : (a ++ b).data ≠ [] := by
  rw [String.data_append]
  intro h
  rcases List.append_eq_nil.mp h with ⟨-, h2⟩
  exact hb h2

lemma pngCandidate_getLast (image : String) (folder : Option String) :
    (pngCandidate image folder).data.getLast? = some 'g' := by
  unfold pngCandidate
  cases folder with
  | none =>
    rw [getLast_append_suffix _ _ (by decide)]
    rfl
  | some f =>
    show (joinPath f (basename (rsplitOme (splitext image).1) ++ ".png")).data.getLast?
        = some 'g'
    unfold joinPath
    by_cases h1 : ((basename (rsplitOme (splitext image).1) ++ ".png").data.getD 0 ' '
        == '/') = true
    · rw [if_pos h1, getLast_append_suffix _ _ (by decide)]
      rfl
    · rw [if_neg h1]
      by_cases h2 : (f.data.isEmpty || (f.data.getLast? == some '/')) = true
      · rw [if_pos h2, getLast_append_suffix _ _ (data_append_ne_nil _ _ (by decide)),
          getLast_append_suffix _ _ (by decide)]
        rfl
      · rw [if_neg h2, getLast_append_suffix _ _ (data_append_ne_nil _ _ (by decide)),
          getLast_append_suffix _ _ (by decide)]
        rfl

lemma jsonSidecar_getLast (nf : String) :
    (jsonSidecar nf).data.getLast? = some 'n' := by
  unfold jsonSidecar
  rw [getLast_append_suffix _ _ (by decide)]
  rfl

lemma pngCandidate_ne_jsonSidecar (i : String) (folder : Option String) (nf : String) :
    pngCandidate i folder ≠ jsonSidecar nf := by
  apply ne_of_data_getLast_ne
  rw [pngCandidate_getLast, jsonSidecar_getLast]
  decide

/-- With the candidate PNG absent, every exception of `compress_blocking`
is caught, so the call returns: with the empty-string failure marker when
the item fails (in particular whenever its extension is not `.tif`), and
with the item's own PNG candidate on success. -/
lemma compress_blocking_total (fs : FS) (image : String) (d : Bool) (folder : Option String)
    (h : isfile fs (pngCandidate image folder) = false) :
    ∃ fs' r, compress_blocking fs image d folder false = .ok (fs', r)
      ∧ ((splitext image).2 ≠ ".tif" → r = "")
      ∧ (r = "" ∨ r = pngCandidate image folder) := by
  unfold compress_blocking compressBlockingInner
  rw [h]
  simp only [Bool.false_and, Bool.false_eq_true, if_false]
  by_cases he : (splitext image).2 ≠ ".tif"
  · rw [if_pos he]
    exact ⟨fs, "", rfl, fun _ => rfl, Or.inl rfl⟩
  · rw [if_neg he]
    cases hr : readFile fs image with
    | none => exact ⟨fs, "", rfl, fun _ => rfl, Or.inl rfl⟩
    | some fd =>
      cases fd with
      | image img =>
        exact ⟨compressWrite fs image img d (pngCandidate image folder),
          pngCandidate image folder, rfl, fun hc => absurd hc he, Or.inr rfl⟩
      | jsonF j => exact ⟨fs, "", rfl, fun _ => rfl, Or.inl rfl⟩

/-- The only paths `compress_blocking` can create are the PNG candidate
and its JSON sidecar. -/
lemma isfile_compress_blocking (fs fs' : FS) (image r : String) (d : Bool)
    (folder : Option String)
    (hok : compress_blocking fs image d folder false = .ok (fs', r)) (p : String)
    (hp : isfile fs' p = true) :
    isfile fs p = true ∨ p = pngCandidate image folder
      ∨ p = jsonSidecar (pngCandidate image folder) := by
  by_cases h1 : (isfile fs (pngCandidate image folder) && !false) = true
  · have hcb : compress_blocking fs image d folder false
        = .error (.nameError, fs) := by
      unfold compress_blocking compressBlockingInner
      rw [if_pos h1]
    rw [hcb] at hok
    cases hok
  · by_cases h2 : (splitext image).2 ≠ ".tif"
    · have hcb : compress_blocking fs image d folder false = .ok (fs, "") := by
        unfold compress_blocking compressBlockingInner
        rw [if_neg h1, if_pos h2]
      rw [hcb] at hok
      injection hok with hok2
      injection hok2 with hfs2 hr2
      rw [← hfs2] at hp
      exact Or.inl hp
    · cases hr : readFile fs image with
      | none =>
        have hcb : compress_blocking fs image d folder false = .ok (fs, "") := by
          unfold compress_blocking compressBlockingInner
          rw [if_neg h1, if_neg h2, hr]
        rw [hcb] at hok
        injection hok with hok2
        injection hok2 with hfs2 hr2
        rw [← hfs2] at hp
        exact Or.inl hp
      | some fd =>
        cases fd with
        | jsonF j =>
          have hcb : compress_blocking fs image d folder false = .ok (fs, "") := by
            unfold compress_blocking compressBlockingInner
            rw [if_neg h1, if_neg h2, hr]
          rw [hcb] at hok
          injection hok with hok2
          injection hok2 with hfs2 hr2
          rw [← hfs2] at hp
          exact Or.inl hp
        | image img =>
          have hcb : compress_blocking fs image d folder false
              = .ok (compressWrite fs image img d (pngCandidate image folder),
                  pngCandidate image folder) := by
            unfold compress_blocking compressBlockingInner
            rw [if_neg h1, if_neg h2, hr]
          rw [hcb] at hok
          injection hok with hok2
          injection hok2 with hfs2 hr2
          rw [← hfs2] at hp
          have hp2 : isfile (compressFiles fs img (pngCandidate image folder)) p = true := by
            cases d with
            | true =>
              exact isfile_removeFile_le _ p image (by simpa [compressWrite] using hp)
            | false => simpa [compressWrite] using hp
          unfold compressFiles at hp2
          rcases (isfile_setFile _ _ _ _).mp hp2 with hc | hrest
          · exact Or.inr (Or.inl hc)
          · rcases (isfile_setFile _ _ _ _).mp hrest with hj | hfs
            · exact Or.inr (Or.inr hj)
            · exact Or.inl hfs

/-- Batch compress succeeds with one result per input when the inputs'
PNG candidates are pairwise distinct and all absent: position by position,
each result is its input's PNG candidate or the empty-string failure
marker, the latter whenever the input is not a `.tif`. -/
lemma compressList_ok (images : List String) (fs : FS) (d : Bool) (folder : Option String)
    (hdist : images.Pairwise (fun a b => pngCandidate a folder ≠ pngCandidate b folder))
    (habs : ∀ i ∈ images, isfile fs (pngCandidate i folder) = false) :
    ∃ fs' rs, compressList fs images d folder = .ok (fs', rs)
      ∧ rs.length = images.length
      ∧ List.Forall₂ (fun img r => ((splitext img).2 ≠ ".tif" → r = "")
          ∧ (r = "" ∨ r = pngCandidate img folder)) images rs := by
  induction images generalizing fs with
  | nil => exact ⟨fs, [], rfl, rfl, List.Forall₂.nil⟩
  | cons x xs ih =>
    obtain ⟨fs1, r, hx, hrtif, hrshape⟩ :=
      compress_blocking_total fs x d folder (habs x (List.mem_cons_self x xs))
    have habs' : ∀ i ∈ xs, isfile fs1 (pngCandidate i folder) = false := by
      intro i hi
      cases hc : isfile fs1 (pngCandidate i folder) with
      | false => rfl
      | true =>
        exfalso
        rcases isfile_compress_blocking fs fs1 x r d folder hx _ hc with hold | hcand | hjson
        · rw [habs i (List.mem_cons_of_mem x hi)] at hold
          cases hold
        · exact (List.pairwise_cons.mp hdist).1 i hi hcand.symm
        · exact pngCandidate_ne_jsonSidecar i folder _ hjson
    obtain ⟨fs2, rs, hrest, hlen, hpos⟩ := ih fs1 (List.pairwise_cons.mp hdist).2 habs'
    refine ⟨fs2, r :: rs, ?_, ?_, ?_⟩
    · unfold compressList
      rw [hx]
      show (match compressList fs1 xs d folder with
        | Except.error e => Except.error e
        | Except.ok (fs2, rs) => Except.ok (fs2, r :: rs)) = Except.ok (fs2, r :: rs)
      rw [hrest]
    · simp [hlen]
    · exact List.Forall₂.cons ⟨hrtif, hrshape⟩ hpos

lemma decompressList_length_le (images : List String) (fs fs' : FS)
    (dp dj : Bool) (folder : Option String) (rs : List String)
    (hok : decompressList fs images dp dj folder = .ok (fs', rs)) :
    rs.length ≤ images.length := by
  induction images generalizing fs fs' rs with
  | nil =>
    unfold decompressList at hok
    injection hok with h
    injection h with h1 h2
    rw [← h2]
  | cons x xs ih =>
    unfold decompressList at hok
    cases hone : decompressOne fs x dp dj folder with
    | error e =>
      rw [hone] at hok
      cases hok
    | ok pr =>
      obtain ⟨fs1, r⟩ := pr
      rw [hone] at hok
      replace hok : (match decompressList fs1 xs dp dj folder with
          | Except.error e => Except.error e
          | Except.ok (fs2, rs2) => Except.ok (fs2, r.toList ++ rs2))
          = Except.ok (fs', rs) := hok
      cases hrest : decompressList fs1 xs dp dj folder with
      | error e =>
        rw [hrest] at hok
        cases hok
      | ok pr2 =>
        obtain ⟨fs2, rs2⟩ := pr2
        rw [hrest] at hok
        injection hok with h
        injection h with h1 h2
        have hr2 := ih fs1 fs2 rs2 hrest
        rw [← h2, List.length_append]
        have : r.toList.length ≤ 1 := by
          cases r <;> simp
        simp only [List.length_cons]
        omega

/-- A caught per-item failure of `decompress` (the item's `decompressOne`
returns no entry) leaves the batch to continue with the remaining items,
appending nothing for the failed item. -/
lemma decompressList_skip (fs fs1 : FS) (x : String) (xs : List String)
    (dp dj : Bool) (folder : Option String)
    (h : decompressOne fs x dp dj folder = .ok (fs1, none)) :
    decompressList fs (x :: xs) dp dj folder = decompressList fs1 xs dp dj folder := by
  conv_lhs => rw [decompressList]
  rw [h]
  show (match decompressList fs1 xs dp dj folder with
    | Except.error e => Except.error e
    | Except.ok (fs2, rs) => Except.ok (fs2, (none : Option String).toList ++ rs))
    = decompressList fs1 xs dp dj folder
  cases hrest : decompressList fs1 xs dp dj folder with
  | error e => rfl
  | ok pr =>
    obtain ⟨fs2, rs⟩ := pr
    rfl

/-- Claim C3 (amended): a batch `compress` of N items returns exactly N
results, one per input position — each either the input's own PNG
candidate (success) or the empty-string failure marker, the latter
whenever the input is not a `.tif` — provided no two inputs share a PNG
candidate and no candidate already exists (otherwise the undefined-name
`NameError` of the already-exists branch aborts the batch); a batch
`decompress` catches `IOError`/`AssertionError` per item and continues
with the remaining items, but appends nothing for a failed item, so it
returns at most N results (failed items are skipped, not marked). -/
theorem batch_results_amended :
    (∀ (fs : FS) (images : List String) (d : Bool) (folder : Option String),
      images.Pairwise (fun a b => pngCandidate a folder ≠ pngCandidate b folder) →
      (∀ i ∈ images, isfile fs (pngCandidate i folder) = false) →
      ∃ fs' rs, compressPy fs (.l images) d folder = .ok (fs', rs)
        ∧ rs.length = images.length
        ∧ List.Forall₂ (fun img r => ((splitext img).2 ≠ ".tif" → r = "")
            ∧ (r = "" ∨ r = pngCandidate img folder)) images rs)
    ∧ (∀ (fs fs1 : FS) (x : String) (xs : List String) (dp dj : Bool)
        (folder : Option String),
      decompressOne fs x dp dj folder = .ok (fs1, none) →
      decompressPy fs (.l (x :: xs)) dp dj folder = decompressPy fs1 (.l xs) dp dj folder)
    ∧ (∀ (fs fs' : FS) (images : List String) (dp dj : Bool) (folder : Option String)
        (rs : List String),
      decompressPy fs (.l images) dp dj folder = .ok (fs', rs) →
      rs.length ≤ images.length) := by
  refine ⟨?_, ?_, ?_⟩
  · intro fs images d folder hdist habs
    exact compressList_ok images fs d folder hdist habs
  · intro fs fs1 x xs dp dj folder h
    exact decompressList_skip fs fs1 x xs dp dj folder h
  · intro fs fs' images dp dj folder rs hok
    exact decompressList_length_le images fs fs' dp dj folder rs hok

/-- Witness for `batch_results_amended` at concrete inputs: a one-element
batch compress of an absent-candidate `.tif`, a two-element batch
decompress whose first item fails with a caught error and is skipped, and
a batch decompress returning fewer results than inputs. -/
theorem batch_results_amended_witness :
    ((["a.ome.tif"] : List String).Pairwise
        (fun a b => pngCandidate a none ≠ pngCandidate b none)
      ∧ (∀ i ∈ (["a.ome.tif"] : List String), isfile ([] : FS) (pngCandidate i none) = false)
      ∧ decompressOne [] "a.jpg" false false none = .ok ([], none)
      ∧ decompressPy [] (.l ["x.png"]) false false none = .ok ([], []))
    ∧ (∃ fs' rs, compressPy [] (.l ["a.ome.tif"]) false none = .ok (fs', rs)
        ∧ rs.length = (["a.ome.tif"] : List String).length
        ∧ List.Forall₂ (fun img r => ((splitext img).2 ≠ ".tif" → r = "")
            ∧ (r = "" ∨ r = pngCandidate img none)) ["a.ome.tif"] rs)
    ∧ decompressPy [] (.l ["a.jpg", "b.png"]) false false none
        = decompressPy [] (.l ["b.png"]) false false none
    ∧ ([] : List String).length ≤ (["x.png"] : List String).length := by
  refine ⟨⟨List.pairwise_singleton _ _, fun _ _ => rfl, rfl, rfl⟩, ?_, ?_, ?_⟩
  · exact batch_results_amended.1 [] ["a.ome.tif"] false none
      (List.pairwise_singleton _ _) (fun _ _ => rfl)
  · exact batch_results_amended.2.1 [] [] "a.jpg" ["b.png"] false false none rfl
  · exact batch_results_amended.2.2 [] [] ["x.png"] false false none [] rfl

/-! ## Claim C6: sidecar value reconstruction -/

def isScalar : PyVal → Bool
  | .int _ => true
  | .str _ => true
  | _ => false

/-- The claim's description of value reconstruction, modelled from its
words: JSON arrays become tuples, nested arrays become tuples of tuples,
scalars stay as they are. -/
def tupled : PyVal → PyVal
  | .list l => .tuple (l.map fun e =>
      match e with
      | .list m => PyVal.tuple m
      | x => x)
  | v => v

/-- The sidecar values the reconstruction loop handles as the claim
describes: non-empty strings, non-empty homogeneous flat arrays (no
element an array), and non-empty arrays of arrays.  Numeric scalars and
empty values make the loop raise (`val[0]` fails), and mixed arrays are
converted element-wise only when the FIRST element is an array. -/
def jsonGood : PyVal → Bool
  | .str s => !s.data.isEmpty
  | .list [] => false
  | .list (x :: xs) =>
    match x with
    | .list _ => (x :: xs).all isList
    | _ => (x :: xs).all (fun e => !(isList e))
  | _ => false

lemma mapM_pyTuple_of_lists (l : List PyVal) (h : ∀ e ∈ l, isList e = true) :
    l.mapM pyTuple = .ok (l.map fun e =>
      match e with
      | .list m => PyVal.tuple m
      | x => x) := by
  induction l with
  | nil => rfl
  | cons a t ih =>
    have ha := h a (List.mem_cons_self a t)
    have ht := ih (fun e he => h e (List.mem_cons_of_mem a he))
    cases a with
    | list m =>
      rw [List.mapM_cons, ht]
      rfl
    | int n => cases ha
    | str s => cases ha
    | tuple m => cases ha

lemma map_id_of_not_list (l : List PyVal) (h : ∀ e ∈ l, isList e = false) :
    (l.map fun e =>
      match e with
      | .list m => PyVal.tuple m
      | x => x) = l := by
  induction l with
  | nil => rfl
  | cons a t ih =>
    have ha := h a (List.mem_cons_self a t)
    have ht := ih (fun e he => h e (List.mem_cons_of_mem a he))
    cases a with
    | list m => cases ha
    | int n => simp [ht]
    | str s => simp [ht]
    | tuple m => simp [ht]

/-- On a good sidecar value the imperative conversion computes exactly the
claim's `tupled`. -/
lemma convertVal_jsonGood (v : PyVal) (h : jsonGood v = true) :
    convertVal v = .ok (tupled v) := by
  cases v with
  | int n => cases h
  | tuple l => cases h
  | str s =>
    have hne : (!s.data.isEmpty) = true := h
    unfold convertVal
    cases hs : s.data with
    | nil =>
      rw [hs] at hne
      cases hne
    | cons c cs =>
      rw [show listToTuple (.str s) = .str s from rfl]
      rw [show sub0 (.str s) = match s.data with
        | [] => Except.error PyErr.indexError
        | c :: _ => Except.ok (.str ⟨[c]⟩) from rfl, hs]
      rfl
  | list l =>
    cases l with
    | nil => cases h
    | cons x xs =>
      unfold convertVal
      rw [show listToTuple (.list (x :: xs)) = .tuple (x :: xs) from rfl]
      rw [show sub0 (.tuple (x :: xs)) = .ok x from rfl]
      cases hx : isList x with
      | true =>
        cases x with
        | list m =>
          have hall : ∀ e ∈ PyVal.list m :: xs, isList e = true := by
            have h2 : ((PyVal.list m :: xs).all isList) = true := h
            exact fun e he => List.all_eq_true.mp h2 e he
          show (if isList (PyVal.list m) = true then
              match pyIter (PyVal.tuple (PyVal.list m :: xs)) with
              | Except.error e => Except.error e
              | Except.ok els =>
                match els.mapM pyTuple with
                | Except.error e => Except.error e
                | Except.ok els2 => Except.ok (PyVal.tuple els2)
            else Except.ok (PyVal.tuple (PyVal.list m :: xs)))
            = Except.ok (tupled (PyVal.list (PyVal.list m :: xs)))
          rw [show isList (PyVal.list m) = true from rfl]
          simp only [if_true]
          rw [show pyIter (.tuple (PyVal.list m :: xs)) = .ok (PyVal.list m :: xs) from rfl]
          show (match (PyVal.list m :: xs).mapM pyTuple with
            | Except.error e => Except.error e
            | Except.ok els2 => Except.ok (PyVal.tuple els2))
            = Except.ok (tupled (PyVal.list (PyVal.list m :: xs)))
          rw [mapM_pyTuple_of_lists _ hall]
          rfl
        | int n => cases hx
        | str s => cases hx
        | tuple m => cases hx
      | false =>
        show (if isList x = true then
            match pyIter (PyVal.tuple (x :: xs)) with
            | Except.error e => Except.error e
            | Except.ok els =>
              match els.mapM pyTuple with
              | Except.error e => Except.error e
              | Except.ok els2 => Except.ok (PyVal.tuple els2)
          else Except.ok (PyVal.tuple (x :: xs)))
          = Except.ok (tupled (PyVal.list (x :: xs)))
        rw [hx]
        simp only [Bool.false_eq_true, if_false]
        have hall : ∀ e ∈ x :: xs, isList e = false := by
          cases x with
          | list m => cases hx
          | int n =>
            have h2 : ((PyVal.int n :: xs).all (fun e => !(isList e))) = true := h
            intro e he
            have := List.all_eq_true.mp h2 e he
            simpa using this
          | str s =>
            have h2 : ((PyVal.str s :: xs).all (fun e => !(isList e))) = true := h
            intro e he
            have := List.all_eq_true.mp h2 e he
            simpa using this
          | tuple m =>
            have h2 : ((PyVal.tuple m :: xs).all (fun e => !(isList e))) = true := h
            intro e he
            have := List.all_eq_true.mp h2 e he
            simpa using this
        show Except.ok (PyVal.tuple (x :: xs))
          = Except.ok (PyVal.tuple ((x :: xs).map fun e =>
              match e with
              | PyVal.list m => PyVal.tuple m
              | x => x))
        rw [map_id_of_not_list _ hall]

lemma dictInsert_append (d : List (Int × PyVal)) (k : Int) (v : PyVal)
    (h : ∀ kv ∈ d, kv.1 ≠ k) : dictInsert d k v = d ++ [(k, v)] := by
  unfold dictInsert
  rw [if_neg]
  intro hc
  obtain ⟨kv, hm, hk⟩ := List.any_eq_true.mp hc
  exact h kv hm (by simpa using hk)

/-- The integer keys that the reconstruction loop inserts, in order. -/
def parsedKeys (tags : List (String × PyVal)) : List Int :=
  tags.filterMap (fun kv => if kv.1 = "palette" then none else (pyInt kv.1).toOption)

lemma convertTags_go (tags : List (String × PyVal)) :
    ∀ acc : List (Int × PyVal),
    (∀ kv ∈ tags, kv.1 = "palette" ∨ ((pyInt kv.1).isOk ∧ jsonGood kv.2 = true)) →
    (acc.map Prod.fst ++ parsedKeys tags).Nodup →
    convertTags tags (.ok acc)
      = .ok (acc ++ tags.filterMap (fun kv =>
          if kv.1 = "palette" then none
          else match pyInt kv.1 with
            | .ok k => some (k, tupled kv.2)
            | .error _ => none)) := by
  induction tags with
  | nil =>
    intro acc h hnd
    simp [convertTags]
  | cons kv rest ih =>
    intro acc h hnd
    by_cases hp : kv.1 = "palette"
    · have hstep : convertTags (kv :: rest) (.ok acc) = convertTags rest (.ok acc) := by
        show (if kv.1 = "palette" then convertTags rest (Except.ok acc)
          else
            match convertVal kv.2 with
            | Except.error e => Except.error e
            | Except.ok val =>
              match pyInt kv.1 with
              | Except.error e => Except.error e
              | Except.ok k => convertTags rest (Except.ok (dictInsert acc k val)))
          = convertTags rest (Except.ok acc)
        rw [if_pos hp]
      have hpk : parsedKeys (kv :: rest) = parsedKeys rest := by
        simp [parsedKeys, List.filterMap_cons, hp]
      rw [hpk] at hnd
      rw [hstep, ih acc (fun e he => h e (List.mem_cons_of_mem kv he)) hnd]
      congr 1
      rw [List.filterMap_cons]
      simp [hp]
    · rcases h kv (List.mem_cons_self kv rest) with hpal | ⟨hok, hgood⟩
      · exact absurd hpal hp
      obtain ⟨k, hk⟩ : ∃ k, pyInt kv.1 = .ok k := by
        cases hpi : pyInt kv.1 with
        | ok k => exact ⟨k, rfl⟩
        | error e =>
          rw [hpi] at hok
          cases hok
      have hstep : convertTags (kv :: rest) (.ok acc)
          = convertTags rest (.ok (dictInsert acc k (tupled kv.2))) := by
        show (if kv.1 = "palette" then convertTags rest (Except.ok acc)
          else
            match convertVal kv.2 with
            | Except.error e => Except.error e
            | Except.ok val =>
              match pyInt kv.1 with
              | Except.error e => Except.error e
              | Except.ok k2 => convertTags rest (Except.ok (dictInsert acc k2 val)))
          = convertTags rest (.ok (dictInsert acc k (tupled kv.2)))
        rw [if_neg hp, convertVal_jsonGood _ hgood]
        show (match pyInt kv.1 with
          | Except.error e => Except.error e
          | Except.ok k2 => convertTags rest (Except.ok (dictInsert acc k2 (tupled kv.2))))
          = convertTags rest (.ok (dictInsert acc k (tupled kv.2)))
        rw [hk]
      have hpk : parsedKeys (kv :: rest) = k :: parsedKeys rest := by
        simp [parsedKeys, List.filterMap_cons, hp, hk, Except.toOption]
      rw [hpk] at hnd
      have hkacc : ∀ kv' ∈ acc, kv'.1 ≠ k := by
        intro kv' hm he
        have hdisj := (List.nodup_append.mp hnd).2.2
        exact hdisj (List.mem_map_of_mem Prod.fst hm) (he ▸ List.mem_cons_self k _)
      have hnd' : ((acc ++ [(k, tupled kv.2)]).map Prod.fst ++ parsedKeys rest).Nodup := by
        rw [List.map_append]
        have : (acc.map Prod.fst ++ [(k, tupled kv.2)].map Prod.fst) ++ parsedKeys rest
            = acc.map Prod.fst ++ (k :: parsedKeys rest) := by
          rw [List.append_assoc]
          rfl
        rw [this]
        exact hnd
      rw [hstep, dictInsert_append _ _ _ hkacc,
        ih _ (fun e he => h e (List.mem_cons_of_mem kv he)) hnd']
      rw [List.filterMap_cons]
      simp only [hp, if_false, hk]
      rw [List.append_assoc]
      rfl

lemma asIntList_map_int (pal : List Int) :
    asIntList (.list (pal.map PyVal.int)) = .ok pal := by
  induction pal with
  | nil => rfl
  | cons a t ih =>
    simp only [asIntList, List.map_cons, List.mapM_cons] at ih ⊢
    rw [ih]
    rfl

/-- Claim C6 (amended): for a sidecar JSON object whose non-palette values
are non-empty strings, non-empty homogeneous flat arrays, or non-empty
arrays of arrays, and whose keys parse to pairwise-distinct integers,
`decompress` reconstructs the tag mapping with integer keys, arrays
becoming tuples and nested arrays tuples of tuples, excluding the reserved
`palette` key; a present `palette` key is instead applied to re-establish
palette colour mode (`mode = 'P'` with that palette).  Numeric scalar
values and empty arrays are NOT handled: they raise an uncaught
`TypeError`/`IndexError` (see the counterexample). -/
theorem sidecar_reconstruction (tags : List (String × PyVal))
    (h : ∀ kv ∈ tags, kv.1 = "palette" ∨ ((pyInt kv.1).isOk ∧ jsonGood kv.2 = true))
    (hnd : (parsedKeys tags).Nodup) :
    convertTags tags (.ok [])
      = .ok (tags.filterMap (fun kv =>
          if kv.1 = "palette" then none
          else match pyInt kv.1 with
            | .ok k => some (k, tupled kv.2)
            | .error _ => none))
    ∧ (∀ (img : Img) (pal : List Int),
        lookupStr tags "palette" = some (.list (pal.map PyVal.int)) →
        applyPalette img tags = .ok { img with mode := "P", palette := some pal })
    ∧ (∀ img : Img, lookupStr tags "palette" = none → applyPalette img tags = .ok img) := by
  refine ⟨?_, ?_, ?_⟩
  · have hgo := convertTags_go tags [] h (by simpa using hnd)
    simpa using hgo
  · intro img pal hl
    unfold applyPalette
    rw [hl]
    show (match asIntList (PyVal.list (pal.map PyVal.int)) with
        | Except.error e => Except.error e
        | Except.ok p => Except.ok { img with mode := "P", palette := some p })
      = Except.ok { img with mode := "P", palette := some pal }
    rw [asIntList_map_int]
  · intro img hl
    unfold applyPalette
    rw [hl]

/-- Witness for `sidecar_reconstruction` at a concrete sidecar object. -/
theorem sidecar_reconstruction_witness :
    ((∀ kv ∈ [("256", PyVal.list [PyVal.int 1, PyVal.int 2]),
        ("palette", PyVal.list [PyVal.int 0])],
      kv.1 = "palette" ∨ ((pyInt kv.1).isOk ∧ jsonGood kv.2 = true))
    ∧ (parsedKeys [("256", PyVal.list [PyVal.int 1, PyVal.int 2]),
        ("palette", PyVal.list [PyVal.int 0])]).Nodup)
    ∧ (convertTags [("256", PyVal.list [PyVal.int 1, PyVal.int 2]),
          ("palette", PyVal.list [PyVal.int 0])] (.ok [])
        = .ok ([("256", PyVal.list [PyVal.int 1, PyVal.int 2]),
            ("palette", PyVal.list [PyVal.int 0])].filterMap (fun kv =>
            if kv.1 = "palette" then none
            else match pyInt kv.1 with
              | .ok k => some (k, tupled kv.2)
              | .error _ => none))
      ∧ (∀ (img : Img) (pal : List Int),
          lookupStr [("256", PyVal.list [PyVal.int 1, PyVal.int 2]),
            ("palette", PyVal.list [PyVal.int 0])] "palette"
            = some (.list (pal.map PyVal.int)) →
          applyPalette img [("256", PyVal.list [PyVal.int 1, PyVal.int 2]),
            ("palette", PyVal.list [PyVal.int 0])]
            = .ok { img with mode := "P", palette := some pal })
      ∧ (∀ img : Img,
          lookupStr [("256", PyVal.list [PyVal.int 1, PyVal.int 2]),
            ("palette", PyVal.list [PyVal.int 0])] "palette" = none →
          applyPalette img [("256", PyVal.list [PyVal.int 1, PyVal.int 2]),
            ("palette", PyVal.list [PyVal.int 0])] = .ok img)) := by
  refine ⟨⟨?_, ?_⟩, sidecar_reconstruction _ ?_ ?_⟩
  · intro kv hkv
    simp only [List.mem_cons, List.not_mem_nil, or_false] at hkv
    rcases hkv with h | h
    · subst h
      exact Or.inr ⟨by decide, by decide⟩
    · subst h
      exact Or.inl rfl
  · decide
  · intro kv hkv
    simp only [List.mem_cons, List.not_mem_nil, or_false] at hkv
    rcases hkv with h | h
    · subst h
      exact Or.inr ⟨by decide, by decide⟩
    · subst h
      exact Or.inl rfl
  · decide

def fsC6 : FS :=
  [("a.png", .image ⟨"L", [1], none, []⟩),
   ("a.json", .jsonF [("256", .int 5)])]

/-- Counterexample to claim C6 as stated: a sidecar whose value is the
numeric scalar `5` is in the claim's domain ("values are scalars, flat
arrays, or arrays-of-arrays"), but `decompress` raises an uncaught
`TypeError` on it (`val[0]` on an int), instead of reconstructing the
mapping. -/
theorem sidecar_scalar_counterexample :
    decompressList fsC6 ["a.png"] false false none = .error (.typeError, fsC6) := by
  rfl

/-! ## Claim C1: compress/decompress round trip -/

/-- A tuple of scalars (a multi-value PIL tag entry). -/
def goodRow : PyVal → Bool
  | .tuple l => l.all isScalar
  | _ => false

/-- The tag values whose JSON serialisation round-trips exactly: non-empty
tuples of scalars, and non-empty tuples of scalar tuples (the shapes PIL's
`tag.as_dict()` produces for well-formed tags). -/
def goodTag : PyVal → Bool
  | .tuple [] => false
  | .tuple (x :: vs) =>
    match x with
    | .tuple _ => (x :: vs).all goodRow
    | _ => (x :: vs).all isScalar
  | _ => false

/-- What `json.dump`+`json.load` makes of a scalar tuple: a flat list. -/
def rowToList : PyVal → PyVal
  | .tuple li => .list li
  | x => x

lemma jfy_scalar (v : PyVal) (h : isScalar v = true) : jfy v = v := by
  cases v with
  | int n => rfl
  | str s => rfl
  | list l => cases h
  | tuple l => cases h

lemma jfyList_scalar (l : List PyVal) (h : l.all isScalar = true) :
    jfyList l = l := by
  induction l with
  | nil => rfl
  | cons x xs ih =>
    simp only [List.all_cons, Bool.and_eq_true] at h
    show jfy x :: jfyList xs = x :: xs
    rw [jfy_scalar x h.1, ih h.2]

lemma jfyList_rows (l : List PyVal) (h : l.all goodRow = true) :
    jfyList l = l.map rowToList := by
  induction l with
  | nil => rfl
  | cons x xs ih =>
    simp only [List.all_cons, Bool.and_eq_true] at h
    show jfy x :: jfyList xs = rowToList x :: xs.map rowToList
    rw [ih h.2]
    cases x with
    | int n => cases h.1
    | str s => cases h.1
    | list m => cases h.1
    | tuple m =>
      show PyVal.list (jfyList m) :: xs.map rowToList = PyVal.list m :: xs.map rowToList
      rw [jfyList_scalar m h.1]

lemma isList_false_of_isScalar (l : List PyVal) (h : l.all isScalar = true) :
    ∀ e ∈ l, isList e = false := by
  rw [List.all_eq_true] at h
  intro e he
  have hs := h e he
  cases e with
  | int n => rfl
  | str s => rfl
  | list m => cases hs
  | tuple m => rfl

lemma not_isList_of_isScalar (l : List PyVal) (h : l.all isScalar = true) :
    l.all (fun e => !(isList e)) = true := by
  rw [List.all_eq_true]
  intro e he
  rw [isList_false_of_isScalar l h e he]
  rfl

lemma isList_of_rows (l : List PyVal) (h : l.all goodRow = true) :
    (l.map rowToList).all isList = true := by
  rw [List.all_eq_true] at h ⊢
  intro e he
  obtain ⟨x, hx, rfl⟩ := List.mem_map.mp he
  have hr := h x hx
  cases x with
  | int n => cases hr
  | str s => cases hr
  | list m => cases hr
  | tuple m => rfl

/-- Serialising a round-trippable tag value gives a sidecar value the
reconstruction loop handles. -/
lemma jsonGood_jfy (v : PyVal) (h : goodTag v = true) : jsonGood (jfy v) = true := by
  cases v with
  | int n => cases h
  | str s => cases h
  | list l => cases h
  | tuple l =>
    cases l with
    | nil => cases h
    | cons x vs =>
      cases x with
      | int n =>
        have hall : (PyVal.int n :: vs).all isScalar = true := h
        show jsonGood (.list (jfyList (PyVal.int n :: vs))) = true
        rw [jfyList_scalar _ hall]
        show ((PyVal.int n :: vs).all (fun e => !(isList e))) = true
        exact not_isList_of_isScalar _ hall
      | str s =>
        have hall : (PyVal.str s :: vs).all isScalar = true := h
        show jsonGood (.list (jfyList (PyVal.str s :: vs))) = true
        rw [jfyList_scalar _ hall]
        show ((PyVal.str s :: vs).all (fun e => !(isList e))) = true
        exact not_isList_of_isScalar _ hall
      | list m =>
        have hall : (PyVal.list m :: vs).all isScalar = true := h
        simp [List.all_cons, isScalar] at hall
      | tuple m =>
        have hall : (PyVal.tuple m :: vs).all goodRow = true := h
        show jsonGood (.list (jfyList (PyVal.tuple m :: vs))) = true
        rw [jfyList_rows _ hall, List.map_cons]
        show ((PyVal.list (jfyList m) :: vs.map rowToList).all isList) = true
        have hil := isList_of_rows _ hall
        rw [List.map_cons] at hil
        simp only [List.all_cons, Bool.and_eq_true] at hil ⊢
        exact ⟨rfl, hil.2⟩

lemma map_untuple_rowToList (l : List PyVal) (h : l.all goodRow = true) :
    ((l.map rowToList).map fun e =>
      match e with
      | PyVal.list m => PyVal.tuple m
      | x => x) = l := by
  induction l with
  | nil => rfl
  | cons x xs ih =>
    simp only [List.all_cons, Bool.and_eq_true] at h
    rw [List.map_cons, List.map_cons, ih h.2]
    cases x with
    | int n => cases h.1
    | str s => cases h.1
    | list m => cases h.1
    | tuple m => rfl

/-- The deserialiser undoes the serialiser on round-trippable tag values. -/
lemma tupled_jfy (v : PyVal) (h : goodTag v = true) : tupled (jfy v) = v := by
  cases v with
  | int n => cases h
  | str s => cases h
  | list l => cases h
  | tuple l =>
    cases l with
    | nil => cases h
    | cons x vs =>
      cases x with
      | int n =>
        have hall : (PyVal.int n :: vs).all isScalar = true := h
        show tupled (.list (jfyList (PyVal.int n :: vs))) = PyVal.tuple (PyVal.int n :: vs)
        rw [jfyList_scalar _ hall]
        show PyVal.tuple ((PyVal.int n :: vs).map fun e =>
            match e with
            | PyVal.list m => PyVal.tuple m
            | x => x) = PyVal.tuple (PyVal.int n :: vs)
        rw [map_id_of_not_list _ (isList_false_of_isScalar _ hall)]
      | str s =>
        have hall : (PyVal.str s :: vs).all isScalar = true := h
        show tupled (.list (jfyList (PyVal.str s :: vs))) = PyVal.tuple (PyVal.str s :: vs)
        rw [jfyList_scalar _ hall]
        show PyVal.tuple ((PyVal.str s :: vs).map fun e =>
            match e with
            | PyVal.list m => PyVal.tuple m
            | x => x) = PyVal.tuple (PyVal.str s :: vs)
        rw [map_id_of_not_list _ (isList_false_of_isScalar _ hall)]
      | list m =>
        have hall : (PyVal.list m :: vs).all isScalar = true := h
        simp [List.all_cons, isScalar] at hall
      | tuple m =>
        have hall : (PyVal.tuple m :: vs).all goodRow = true := h
        show tupled (.list (jfyList (PyVal.tuple m :: vs))) = PyVal.tuple (PyVal.tuple m :: vs)
        rw [jfyList_rows _ hall]
        show PyVal.tuple (((PyVal.tuple m :: vs).map rowToList).map fun e =>
            match e with
            | PyVal.list m2 => PyVal.tuple m2
            | x => x) = PyVal.tuple (PyVal.tuple m :: vs)
        rw [map_untuple_rowToList _ hall]

/-- Every entry of the written sidecar is either the palette entry or a
parseable key with a reconstructible value. -/
lemma jsonDump_entries_good (tags : List (Int × PyVal)) (pal : Option (List Int))
    (hg : ∀ kv ∈ tags, goodTag kv.2 = true) :
    ∀ kv ∈ jsonDump tags pal, kv.1 = "palette" ∨ ((pyInt kv.1).isOk ∧ jsonGood kv.2 = true) := by
  intro kv hkv
  have hkv2 : kv ∈ tags.map (fun kv => (intToStr kv.1, jfy kv.2))
      ∨ kv ∈ (match pal with
          | some p => [("palette", PyVal.list (p.map PyVal.int))]
          | none => ([] : List (String × PyVal))) := by
    rw [← List.mem_append]
    exact hkv
  rcases hkv2 with hm | hp
  · obtain ⟨⟨k, v⟩, hmem, rfl⟩ := List.mem_map.mp hm
    refine Or.inr ⟨?_, ?_⟩
    · show (pyInt (intToStr k)).isOk = true
      rw [pyInt_intToStr]
      rfl
    · exact jsonGood_jfy v (hg ⟨k, v⟩ hmem)
  · cases pal with
    | some p =>
      have he : kv = ("palette", PyVal.list (p.map PyVal.int)) := by
        simpa using hp
      rw [he]
      exact Or.inl rfl
    | none => exact absurd hp (by simp)

lemma toOption_ok {ε α : Type} (a : α) : (Except.ok a : Except ε α).toOption = some a := rfl

lemma parsedKeys_jsonDump_map (tags : List (Int × PyVal)) :
    parsedKeys (tags.map (fun kv => (intToStr kv.1, jfy kv.2))) = tags.map Prod.fst := by
  induction tags with
  | nil => rfl
  | cons kv rest ih =>
    unfold parsedKeys at ih ⊢
    rw [List.map_cons]
    simp only [List.filterMap_cons, if_neg (intToStr_ne_palette kv.1), pyInt_intToStr,
      toOption_ok]
    rw [ih, List.map_cons]

/-- The keys the reconstruction loop inserts for a written sidecar are
exactly the original tag keys. -/
lemma parsedKeys_jsonDump (tags : List (Int × PyVal)) (pal : Option (List Int)) :
    parsedKeys (jsonDump tags pal) = tags.map Prod.fst := by
  unfold jsonDump parsedKeys
  rw [List.filterMap_append]
  have h2 : (match pal with
      | some p => [("palette", PyVal.list (p.map PyVal.int))]
      | none => ([] : List (String × PyVal))).filterMap
        (fun (kv : String × PyVal) =>
          if kv.1 = "palette" then none else (pyInt kv.1).toOption) = [] := by
    cases pal with
    | some p => simp
    | none => rfl
  rw [h2, List.append_nil]
  exact parsedKeys_jsonDump_map tags

lemma filterMap_conv_jsonDump_map (tags : List (Int × PyVal))
    (hg : ∀ kv ∈ tags, goodTag kv.2 = true) :
    (tags.map (fun kv => (intToStr kv.1, jfy kv.2))).filterMap (fun kv =>
        if kv.1 = "palette" then none
        else match pyInt kv.1 with
          | .ok k => some (k, tupled kv.2)
          | .error _ => none) = tags := by
  induction tags with
  | nil => rfl
  | cons kv rest ih =>
    rw [List.map_cons]
    simp only [List.filterMap_cons, if_neg (intToStr_ne_palette kv.1), pyInt_intToStr]
    rw [ih (fun e he => hg e (List.mem_cons_of_mem kv he)),
      tupled_jfy kv.2 (hg kv (List.mem_cons_self kv rest))]

/-- The reconstruction loop parses a written sidecar back to exactly the
original tag dictionary. -/
lemma convertTags_jsonDump (tags : List (Int × PyVal)) (pal : Option (List Int))
    (hg : ∀ kv ∈ tags, goodTag kv.2 = true)
    (hnd : (tags.map Prod.fst).Nodup) :
    convertTags (jsonDump tags pal) (.ok []) = .ok tags := by
  have hnd2 : (([] : List (Int × PyVal)).map Prod.fst ++ parsedKeys (jsonDump tags pal)).Nodup := by
    rw [parsedKeys_jsonDump]
    simpa using hnd
  rw [convertTags_go (jsonDump tags pal) [] (jsonDump_entries_good tags pal hg) hnd2]
  rw [List.nil_append]
  unfold jsonDump
  rw [List.filterMap_append]
  have h2 : (match pal with
      | some p => [("palette", PyVal.list (p.map PyVal.int))]
      | none => ([] : List (String × PyVal))).filterMap (fun (kv : String × PyVal) =>
        if kv.1 = "palette" then none
        else match pyInt kv.1 with
          | .ok k => some (k, tupled kv.2)
          | .error _ => none) = [] := by
    cases pal with
    | some p => simp
    | none => rfl
  rw [h2, List.append_nil, filterMap_conv_jsonDump_map tags hg]

lemma find?_append_of_none {α : Type} (p : α → Bool) (l1 l2 : List α)
    (h : l1.find? p = none) : (l1 ++ l2).find? p = l2.find? p := by
  induction l1 with
  | nil => rfl
  | cons a t ih =>
    cases hp : p a with
    | true =>
      rw [List.find?_cons, hp] at h
      simp at h
    | false =>
      rw [List.find?_cons, hp] at h
      rw [List.cons_append, List.find?_cons, hp]
      exact ih h

lemma find?_jsonDump_map_none (tags : List (Int × PyVal)) :
    List.find? (fun kv => kv.1 == "palette")
      (tags.map (fun kv => (intToStr kv.1, jfy kv.2))) = none := by
  induction tags with
  | nil => rfl
  | cons kv rest ih =>
    have hbeq : ((intToStr kv.1, jfy kv.2).1 == "palette") = false := by
      simpa using intToStr_ne_palette kv.1
    rw [List.map_cons, List.find?_cons, hbeq]
    exact ih

/-- A P-mode sidecar carries its palette under the reserved key. -/
lemma lookupStr_jsonDump_some (tags : List (Int × PyVal)) (p : List Int) :
    lookupStr (jsonDump tags (some p)) "palette" = some (PyVal.list (p.map PyVal.int)) := by
  unfold lookupStr jsonDump
  rw [find?_append_of_none _ _ _ (find?_jsonDump_map_none tags)]
  rfl

lemma lookupStr_jsonDump_none (tags : List (Int × PyVal)) :
    lookupStr (jsonDump tags none) "palette" = none := by
  unfold lookupStr jsonDump
  rw [find?_append_of_none _ _ _ (find?_jsonDump_map_none tags)]
  rfl

/-- Claim C1 (amended): for a source TIFF `base.ome.tif` whose tag values
are round-trippable (non-empty tuples of scalars or of scalar tuples) with
pairwise-distinct keys, whose PNG candidate does not already exist, and
whose palette is present when the mode is `P`, compressing with source
deletion and then decompressing the produced PNG restores an image with
byte-identical pixel data and tag mapping, with the palette preserved in
the palette-mode case; the mode itself is restored for `P` and `L` but a
16-bit `I;16` source comes back as `I` (the PNG is written with the
switched mode and decompress never switches it back).  Images with other
tag shapes — which compress also accepts — are NOT restored: decompress
raises on them (see the counterexample). -/
theorem compress_decompress_roundtrip
    (fs : FS) (base : String) (img : Img)
    (hbase : goodBase base = true)
    (hsrc : readFile fs (base ++ ".ome.tif") = some (.image img))
    (hpng : isfile fs (base ++ ".png") = false)
    (hg : ∀ kv ∈ img.tags, goodTag kv.2 = true)
    (hnd : (img.tags.map Prod.fst).Nodup)
    (hpal : img.mode = "P" → img.palette = some (getpalette img)) :
    ∃ fs1 fs2,
      compress_blocking fs (base ++ ".ome.tif") true none false
        = .ok (fs1, base ++ ".png")
      ∧ decompressOne fs1 (base ++ ".png") false false none
        = .ok (fs2, some (base ++ ".ome.tif"))
      ∧ readFile fs2 (base ++ ".ome.tif")
        = some (.image
            { mode := if img.mode = "P" then "P" else switchMode img.mode,
              pixels := img.pixels,
              palette := if img.mode = "P" then img.palette else none,
              tags := img.tags }) := by
  have hsp : (splitext (base ++ ".ome.tif")).1 = base ++ ".ome" := by
    rw [splitext_ometif]
  have hsp2 : (splitext (base ++ ".ome.tif")).2 = ".tif" := by
    rw [splitext_ometif]
  have hcand : pngCandidate (base ++ ".ome.tif") none = base ++ ".png" := by
    show rsplitOme (splitext (base ++ ".ome.tif")).1 ++ ".png" = base ++ ".png"
    rw [hsp, rsplitOme_ome]
  have hjson : jsonSidecar (base ++ ".png") = base ++ ".json" := by
    show pyDropRight (base ++ ".png") 4 ++ ".json" = base ++ ".json"
    rw [pyDropRight_png]
  have hinner : compressBlockingInner fs (base ++ ".ome.tif") true none false
      = .ok (removeFile (compressFiles fs img (base ++ ".png")) (base ++ ".ome.tif"),
          base ++ ".png") := by
    unfold compressBlockingInner
    rw [hcand, hpng]
    simp only [Bool.false_and, Bool.false_eq_true, if_false]
    rw [if_neg (show ¬((splitext (base ++ ".ome.tif")).2 ≠ ".tif") from fun hcon => hcon hsp2)]
    rw [hsrc]
    rfl
  have hcompress : compress_blocking fs (base ++ ".ome.tif") true none false
      = .ok (removeFile (compressFiles fs img (base ++ ".png")) (base ++ ".ome.tif"),
          base ++ ".png") := by
    unfold compress_blocking
    rw [hinner]
  have hfs1png : readFile (removeFile (compressFiles fs img (base ++ ".png"))
        (base ++ ".ome.tif")) (base ++ ".png")
      = some (.image ⟨switchMode img.mode, img.pixels, none, []⟩) := by
    rw [readFile_removeFile_other _ _ _ (ometif_ne_png base base).symm]
    exact readFile_setFile_self _ _ _
  have hfs1json : readFile (removeFile (compressFiles fs img (base ++ ".png"))
        (base ++ ".ome.tif")) (base ++ ".json")
      = some (.jsonF (jsonDump img.tags
          (if img.mode = "P" then some (getpalette img) else none))) := by
    rw [readFile_removeFile_other _ _ _ (ometif_ne_json base base).symm]
    have h1 : readFile (compressFiles fs img (base ++ ".png")) (base ++ ".json")
        = readFile (setFile fs (jsonSidecar (base ++ ".png"))
            (.jsonF (jsonDump img.tags
              (if img.mode = "P" then some (getpalette img) else none))))
            (base ++ ".json") :=
      readFile_setFile_other _ _ _ _ (png_ne_json base base).symm
    rw [h1, hjson]
    exact readFile_setFile_self _ _ _
  have hfs1tif : isfile (removeFile (compressFiles fs img (base ++ ".png"))
        (base ++ ".ome.tif")) (base ++ ".ome.tif") = false :=
    isfile_removeFile_self _ _
  have hpp1 : (splitext (base ++ ".png")).1 = base := by rw [splitext_png base hbase]
  have hpp2 : (splitext (base ++ ".png")).2 = ".png" := by rw [splitext_png base hbase]
  have htt : tifTarget (base ++ ".png") none = base ++ ".ome.tif" := by
    show (splitext (base ++ ".png")).1 ++ ".ome.tif" = base ++ ".ome.tif"
    rw [hpp1]
  have hconv : convertTags (jsonDump img.tags
        (if img.mode = "P" then some (getpalette img) else none)) (.ok [])
      = .ok img.tags := convertTags_jsonDump _ _ hg hnd
  have happ : applyPalette ⟨switchMode img.mode, img.pixels, none, []⟩
      (jsonDump img.tags (if img.mode = "P" then some (getpalette img) else none))
      = .ok ⟨(if img.mode = "P" then "P" else switchMode img.mode), img.pixels,
          (if img.mode = "P" then img.palette else none), []⟩ := by
    by_cases hm : img.mode = "P"
    · rw [if_pos hm, if_pos hm, if_pos hm]
      unfold applyPalette
      rw [lookupStr_jsonDump_some]
      show (match asIntList (PyVal.list ((getpalette img).map PyVal.int)) with
          | .error e => Except.error e
          | .ok pal => Except.ok (⟨"P", img.pixels, some pal, []⟩ : Img))
        = Except.ok ⟨"P", img.pixels, img.palette, ([] : List (Int × PyVal))⟩
      rw [asIntList_map_int, hpal hm]
    · rw [if_neg hm, if_neg hm, if_neg hm]
      unfold applyPalette
      rw [lookupStr_jsonDump_none]
  have hdecomp : decompressOne (removeFile (compressFiles fs img (base ++ ".png"))
        (base ++ ".ome.tif")) (base ++ ".png") false false none
      = .ok (setFile (removeFile (compressFiles fs img (base ++ ".png"))
              (base ++ ".ome.tif")) (base ++ ".ome.tif")
            (.image ⟨(if img.mode = "P" then "P" else switchMode img.mode), img.pixels,
                (if img.mode = "P" then img.palette else none), img.tags⟩),
          some (base ++ ".ome.tif")) := by
    unfold decompressOne
    rw [htt, hfs1tif]
    simp only [Bool.false_eq_true, if_false]
    rw [if_neg (show ¬((splitext (base ++ ".png")).2 ≠ ".png") from fun hcon => hcon hpp2)]
    rw [hpp1, hfs1png, hfs1json]
    show (match convertTags (jsonDump img.tags
          (if img.mode = "P" then some (getpalette img) else none)) (.ok []) with
      | .error e => Except.error (e, removeFile (compressFiles fs img (base ++ ".png"))
          (base ++ ".ome.tif"))
      | .ok info =>
        match applyPalette ⟨switchMode img.mode, img.pixels, none, []⟩
            (jsonDump img.tags
              (if img.mode = "P" then some (getpalette img) else none)) with
        | .error e => Except.error (e, removeFile (compressFiles fs img (base ++ ".png"))
            (base ++ ".ome.tif"))
        | .ok img2 =>
          Except.ok (decompressCleanup
              (setFile (removeFile (compressFiles fs img (base ++ ".png"))
                  (base ++ ".ome.tif")) (base ++ ".ome.tif")
                (.image ⟨img2.mode, img2.pixels, img2.palette, info⟩))
              (base ++ ".png") (base ++ ".json") false false,
            some (base ++ ".ome.tif")))
      = _
    rw [hconv, happ]
    rfl
  exact ⟨_, _, hcompress, hdecomp, readFile_setFile_self _ _ _⟩

/-- Witness for `compress_decompress_roundtrip`: a palette-mode image with
a two-value tuple tag round-trips with pixels, tags and palette intact. -/
theorem compress_decompress_roundtrip_witness :
    (goodBase "a" = true
      ∧ readFile [("a.ome.tif", FileData.image ⟨"P", [0, 1], some [10, 11, 12],
            [((256 : Int), PyVal.tuple [PyVal.int 2, PyVal.int 1])]⟩)] ("a" ++ ".ome.tif")
          = some (.image ⟨"P", [0, 1], some [10, 11, 12],
            [((256 : Int), PyVal.tuple [PyVal.int 2, PyVal.int 1])]⟩)
      ∧ (∀ kv ∈ [((256 : Int), PyVal.tuple [PyVal.int 2, PyVal.int 1])], goodTag kv.2 = true)
      ∧ ([((256 : Int), PyVal.tuple [PyVal.int 2, PyVal.int 1])].map Prod.fst).Nodup)
    ∧ ∃ fs1 fs2,
      compress_blocking [("a.ome.tif", FileData.image ⟨"P", [0, 1], some [10, 11, 12],
            [((256 : Int), PyVal.tuple [PyVal.int 2, PyVal.int 1])]⟩)]
          ("a" ++ ".ome.tif") true none false
        = .ok (fs1, "a" ++ ".png")
      ∧ decompressOne fs1 ("a" ++ ".png") false false none
        = .ok (fs2, some ("a" ++ ".ome.tif"))
      ∧ readFile fs2 ("a" ++ ".ome.tif")
        = some (.image ⟨"P", [0, 1], some [10, 11, 12],
            [((256 : Int), PyVal.tuple [PyVal.int 2, PyVal.int 1])]⟩) := by
  refine ⟨⟨by decide, rfl, by decide, by decide⟩, ?_⟩
  obtain ⟨fs1, fs2, h1, h2, h3⟩ := compress_decompress_roundtrip
    [("a.ome.tif", FileData.image ⟨"P", [0, 1], some [10, 11, 12],
        [((256 : Int), PyVal.tuple [PyVal.int 2, PyVal.int 1])]⟩)]
    "a" ⟨"P", [0, 1], some [10, 11, 12], [((256 : Int), PyVal.tuple [PyVal.int 2, PyVal.int 1])]⟩
    (by decide) rfl rfl (by decide) (by decide) (fun _ => rfl)
  refine ⟨fs1, fs2, h1, h2, ?_⟩
  rw [h3]
  rfl

def fsC1 : FS := [("a.ome.tif", .image ⟨"L", [1], none, [((256 : Int), PyVal.tuple [])]⟩)]

/-- Counterexample to claim C1 as stated: `compress` accepts a grayscale
TIFF carrying an empty-tuple tag — a value PIL can produce — and happily
serialises it as `[]`, but `decompress` on the produced PNG then raises an
uncaught `IndexError` (`val[0]` on the empty array, experiment.py:604), so
the round trip does not restore the image at all. -/
theorem roundtrip_counterexample :
    (match compress_blocking fsC1 "a.ome.tif" true none false with
     | .ok (fs1, out) =>
         out = "a.png"
         ∧ decompressOne fs1 "a.png" false false none = .error (.indexError, fs1)
     | .error _ => False) := by
  exact ⟨rfl, rfl⟩

/-! ## Claim C8: the hierarchy accessors and their ordering -/

/-- Glob pattern matching for the patterns the accessors build: a literal
character matches itself and `*` matches any (possibly empty) run of
non-separator characters.  Explicit fuel keeps the recursion structural. -/
def globMatchAux : Nat → List Char → List Char → Bool
  | 0, _, _ => false
  | _ + 1, [], s => s.isEmpty
  | fuel + 1, p :: ps, [] => p == '*' && globMatchAux fuel ps []
  | fuel + 1, p :: ps, c :: cs =>
    if p == '*' then
      globMatchAux fuel ps (c :: cs) || (!(c == '/') && globMatchAux fuel (p :: ps) cs)
    else
      p == c && globMatchAux fuel ps cs

def globMatch (pattern : String) (s : String) : Bool :=
  globMatchAux (pattern.data.length + s.data.length + 1) pattern.data s.data

/-- Embedding of the module-level `glob` (experiment.py:32-35): the
pattern's matches among the existing filesystem paths, sorted.  The
filesystem is the list of its entries' paths. -/
def glob (paths : List String) (pattern : String) : List String :=
  (paths.filter (fun p => globMatch pattern p)).mergeSort (fun a b => decide (a ≤ b))

/-- An `Experiment` is characterised by its path (experiment.py:47-71). -/
structure Experiment : Type where
  path : String

/-- `_pattern(a, b)` (experiment.py:342-363, default extension). -/
def patternJoin (a b : String) : String := joinPath a b ++ "--*"

/-- `_pattern(a, extension=ext)` (experiment.py:342-363). -/
def patternExt (a ext : String) : String := a ++ ext

def slide_path (e : Experiment) : String := patternJoin e.path "slide"

def well_path (e : Experiment) : String := patternJoin (slide_path e) "chamber"

def field_path (e : Experiment) : String := patternJoin (well_path e) "field"

def image_path (e : Experiment) : String := patternJoin (field_path e) "image"

def slides (e : Experiment) (paths : List String) : List String :=
  glob paths (slide_path e)

def wells (e : Experiment) (paths : List String) : List String :=
  glob paths (well_path e)

def fields (e : Experiment) (paths : List String) : List String :=
  glob paths (field_path e)

/-- `Experiment.images` (experiment.py:91-99): the `.tif` matches followed
by the `.png` matches. -/
def images (e : Experiment) (paths : List String) : List String :=
  glob paths (patternExt (image_path e) "tif") ++ glob paths (patternExt (image_path e) "png")

lemma string_le_trans : ∀ a b c : String, decide (a ≤ b) = true → decide (b ≤ c) = true →
    decide (a ≤ c) = true := by
  intro a b c hab hbc
  exact decide_eq_true (le_trans (of_decide_eq_true hab) (of_decide_eq_true hbc))

lemma string_le_total : ∀ a b : String, (decide (a ≤ b) || decide (b ≤ a)) = true := by
  intro a b
  rcases le_total a b with h | h
  · rw [decide_eq_true h, Bool.true_or]
  · rw [decide_eq_true h, Bool.or_true]

lemma glob_sorted (paths : List String) (pat : String) :
    (glob paths pat).Sorted (· ≤ ·) := by
  have h := @List.sorted_mergeSort String (fun a b => decide (a ≤ b))
    string_le_trans string_le_total (paths.filter (fun p => globMatch pat p))
  exact h.imp (fun hx => of_decide_eq_true hx)

lemma mem_glob (paths : List String) (pat p : String) :
    p ∈ glob paths pat ↔ p ∈ paths ∧ globMatch pat p = true := by
  unfold glob
  rw [(List.mergeSort_perm _ _).mem_iff, List.mem_filter]

/-- Claim C8 (amended): `slides`, `wells` and `fields` each return their
pattern's filesystem matches sorted lexicographically, and `images`
returns the `.tif` matches and the `.png` matches of the image-level
pattern — but as the concatenation of the two individually sorted halves,
not one globally sorted list (see the counterexample). -/
theorem accessors_sorted_and_images_union (e : Experiment) (paths : List String) :
    ((slides e paths).Sorted (· ≤ ·)
      ∧ (wells e paths).Sorted (· ≤ ·)
      ∧ (fields e paths).Sorted (· ≤ ·))
    ∧ (∀ p, p ∈ slides e paths ↔ p ∈ paths ∧ globMatch (slide_path e) p = true)
    ∧ (∀ p, p ∈ wells e paths ↔ p ∈ paths ∧ globMatch (well_path e) p = true)
    ∧ (∀ p, p ∈ fields e paths ↔ p ∈ paths ∧ globMatch (field_path e) p = true)
    ∧ images e paths
        = glob paths (patternExt (image_path e) "tif")
            ++ glob paths (patternExt (image_path e) "png")
    ∧ (glob paths (patternExt (image_path e) "tif")).Sorted (· ≤ ·)
    ∧ (glob paths (patternExt (image_path e) "png")).Sorted (· ≤ ·)
    ∧ (∀ p, p ∈ images e paths ↔ p ∈ paths ∧
        (globMatch (patternExt (image_path e) "tif") p = true
          ∨ globMatch (patternExt (image_path e) "png") p = true)) := by
  refine ⟨⟨glob_sorted _ _, glob_sorted _ _, glob_sorted _ _⟩,
    fun p => mem_glob _ _ _, fun p => mem_glob _ _ _, fun p => mem_glob _ _ _,
    rfl, glob_sorted _ _, glob_sorted _ _, ?_⟩
  intro p
  unfold images
  rw [List.mem_append, mem_glob, mem_glob]
  tauto

def pathsC8 : List String :=
  ["r/slide--0/chamber--0/field--0/image--b.tif",
   "r/slide--0/chamber--0/field--0/image--a.png"]

/-- Counterexample to claim C8 as stated: with one compressed and one
uncompressed image on disk, `Experiment.images` returns the `.tif` match
before the lexicographically smaller `.png` match, so the accessor's
result is not sorted lexicographically. -/
theorem images_unsorted_counterexample :
    images ⟨"r"⟩ pathsC8
      = ["r/slide--0/chamber--0/field--0/image--b.tif",
         "r/slide--0/chamber--0/field--0/image--a.png"]
    ∧ ¬ (images ⟨"r"⟩ pathsC8).Sorted (· ≤ ·) := by
  have hf : pathsC8.filter (fun p => globMatch (patternExt (image_path ⟨"r"⟩) "tif") p)
      = ["r/slide--0/chamber--0/field--0/image--b.tif"] := by decide
  have hg : pathsC8.filter (fun p => globMatch (patternExt (image_path ⟨"r"⟩) "png") p)
      = ["r/slide--0/chamber--0/field--0/image--a.png"] := by decide
  have htif : glob pathsC8 (patternExt (image_path ⟨"r"⟩) "tif")
      = ["r/slide--0/chamber--0/field--0/image--b.tif"] := by
    unfold glob
    rw [hf]
    exact List.perm_singleton.mp (List.mergeSort_perm _ _)
  have hpng : glob pathsC8 (patternExt (image_path ⟨"r"⟩) "png")
      = ["r/slide--0/chamber--0/field--0/image--a.png"] := by
    unfold glob
    rw [hg]
    exact List.perm_singleton.mp (List.mergeSort_perm _ _)
  have him : images ⟨"r"⟩ pathsC8
      = ["r/slide--0/chamber--0/field--0/image--b.tif",
         "r/slide--0/chamber--0/field--0/image--a.png"] := by
    unfold images
    rw [htif, hpng]
    rfl
  refine ⟨him, ?_⟩
  rw [him]
  intro hs
  have hba := List.rel_of_sorted_cons hs _ (List.mem_cons_self _ _)
  have hlt : ("r/slide--0/chamber--0/field--0/image--a.png" : String)
      < "r/slide--0/chamber--0/field--0/image--b.tif" := by
    rw [String.lt_iff_toList_lt]
    decide
  exact absurd hba (not_le.mpr hlt)

end Leica
